import Mathlib

/-!
Shallow embedding of the Splunk DDSS journal decoder
(`src/splunk_ddss_extractor/async_decoder.py` together with the shared
helpers of `decoder.py` and the byte-stream layer
`async_stream.py`), and proofs about the decoder's claims.

Modelling conventions:
* Python `bytes` values are `List Nat` (each element a byte value).
* Python `str` values that the decoder stores in its symbol tables are
  kept as their raw bytes (`PyStr := List Nat`); the
  `.decode("utf-8", errors="replace")` step applied at table-append
  time is not modelled because no verified property depends on the
  character-level decoding, only on equality/length of stored entries.
  String literals occurring in the Python source ("exc", exception
  messages) are rendered with `pystr`, which maps ASCII characters to
  their byte values.
* Python exceptions are an explicit `PyErr` value threaded through
  `Except`.
* The buffered `AsyncJournalStream` over an in-memory byte source is
  modelled by its observable state: the full input and an absolute
  position (`JStream`).  `peek` never advances, `read`/`skip` advance
  and fail with `EOFError` when fewer bytes remain, `read n` with
  `n ≤ 0` returns the empty byte string, exactly as in
  `async_stream.py`.
-/

namespace SplunkDDSS

/-- Python exception values that the decoder can raise.  Message strings
are carried where the Python source constructs them. -/
inductive PyErr where
  | eofError (msg : String)
  | valueError (msg : String)
  | structError (msg : String)
  | keyError (key : Nat)
  | unboundLocalError (name : String)
  | indexError (msg : String)
  | unmodelled (msg : String)
deriving Repr, DecidableEq

/-- Python strings as stored by the decoder: their raw bytes. -/
abbrev PyStr := List Nat

/-- Byte rendering of an ASCII string literal from the Python source. -/
def pystr (s : String) : PyStr := s.data.map Char.toNat

/-- State of `AsyncJournalStream` over an in-memory byte source: the
whole input together with the absolute position `pos` (Python
`self.pos`; `tell()`). -/
structure JStream where
  data : List Nat
  pos : Nat
deriving Repr, DecidableEq

/-- Python sequence indexing `data[i]`: a negative index counts from the
end; an index out of range raises `IndexError`. -/
def pyIndex (data : List Nat) (i : Int) : Except PyErr Nat :=
  let j : Int := if i < 0 then i + data.length else i
  if h : 0 ≤ j ∧ j < (data.length : Int) then
    .ok (data.get ⟨j.toNat, by omega⟩)
  else
    .error (.indexError "index out of range")

/-- Python slicing `data[lo:hi]` (total: indices are clamped). -/
def pySlice (data : List Nat) (lo hi : Int) : List Nat :=
  let n : Int := data.length
  let lo' : Int := if lo < 0 then max (lo + n) 0 else min lo n
  let hi' : Int := if hi < 0 then max (hi + n) 0 else min hi n
  (data.drop lo'.toNat).take (hi'.toNat - lo'.toNat)

/-- Python list indexing `tbl[i]` for the string tables, returning
`none` on `IndexError` (negative indices count from the end). -/
def pyListGet (tbl : List PyStr) (i : Int) : Option PyStr :=
  let j : Int := if i < 0 then i + tbl.length else i
  if h : 0 ≤ j ∧ j < (tbl.length : Int) then
    some (tbl.get ⟨j.toNat, by omega⟩)
  else
    none

/-! ### Byte-stream primitives (`async_stream.py`) -/

/-- `AsyncJournalStream.read(n)`: `n ≤ 0` returns `b""`; otherwise
exactly `n` bytes are consumed, or `EOFError` is raised when fewer
remain (`_fill` fails). -/
def sread (s : JStream) (n : Int) : Except PyErr (List Nat × JStream) :=
  if n ≤ 0 then .ok ([], s)
  else if s.pos + n.toNat ≤ s.data.length then
    .ok ((s.data.drop s.pos).take n.toNat, ⟨s.data, s.pos + n.toNat⟩)
  else .error (.eofError "End of stream")

/-- `AsyncJournalStream.read_byte()`. -/
def readByte (s : JStream) : Except PyErr (Nat × JStream) :=
  if h : s.pos < s.data.length then
    .ok (s.data.get ⟨s.pos, h⟩, ⟨s.data, s.pos + 1⟩)
  else .error (.eofError "End of stream")

/-- `AsyncJournalStream.peek(n)`: never advances, tolerates EOF by
returning fewer bytes; `n ≤ 0` returns `b""`. -/
def speek (s : JStream) (n : Int) : List Nat :=
  if n ≤ 0 then [] else (s.data.drop s.pos).take n.toNat

/-- `AsyncJournalStream.skip(n)`: consumes `n` bytes, raising
`EOFError` when fewer remain.  The Python code applies
`del buffer[:n]` and `pos += n` even for negative `n`, which the
(data, pos) abstraction cannot represent; the decoder only ever calls
`skip` with nonnegative counts (the event-header offset always
contains the fixed `+8` of `stream_id`, which dominates the at most
six possible `-1` varint failures), so a negative count is mapped to a
distinguished unreachable error. -/
def sskip (s : JStream) (n : Int) : Except PyErr JStream :=
  if n < 0 then .error (.unmodelled "negative skip")
  else if s.pos + n.toNat ≤ s.data.length then
    .ok ⟨s.data, s.pos + n.toNat⟩
  else .error (.eofError "End of stream")

/-- Loop body of `AsyncJournalStream.read_uvarint`, with `read_byte`
inlined.  The loop consumes one byte per iteration, so
`data.length + 1 - pos` iterations always suffice; the fuel-exhausted
case is unreachable and returns the same `EOFError` the next
iteration would raise. -/
def readUvarintGo : Nat → JStream → Nat → Nat → Except PyErr (Nat × JStream)
  | 0, _, _, _ => .error (.eofError "End of stream")
  | fuel + 1, s, result, shift =>
    if h : s.pos < s.data.length then
      let b := s.data.get ⟨s.pos, h⟩
      let s1 : JStream := ⟨s.data, s.pos + 1⟩
      let result1 := result ||| ((b &&& 0x7f) <<< shift)
      if b &&& 0x80 == 0 then .ok (result1, s1)
      else readUvarintGo fuel s1 result1 (shift + 7)
    else .error (.eofError "End of stream")

/-- `AsyncJournalStream.read_uvarint()`. -/
def readUvarintS (s : JStream) : Except PyErr (Nat × JStream) :=
  readUvarintGo (s.data.length + 1 - s.pos) s 0 0

/-! ### Varint codec from bytes (`decoder.py`) -/

/-- Loop of `decode_uvarint_from_bytes`: Python iterates
`for i in range(offset, len(data))`, so the number of iterations is
`(len(data) - offset).toNat`, which is passed as fuel; when the range
is exhausted without the continuation bit clearing, the function
returns `(0, -1)`.  `data[i]` with a negative `i` follows Python
indexing (`pyIndex`), and raises `IndexError` for `i < -len(data)`. -/
def decodeUvarintGo (data : List Nat) :
    Nat → Int → Nat → Nat → Nat → Except PyErr (Nat × Int)
  | 0, _, _, _, _ => .ok (0, -1)
  | fuel + 1, i, result, shift, n => do
    let b ← pyIndex data i
    let n1 := n + 1
    let result1 := result ||| ((b &&& 0x7f) <<< shift)
    if b &&& 0x80 == 0 then .ok (result1, (n1 : Int))
    else decodeUvarintGo data fuel (i + 1) result1 (shift + 7) n1

/-- `decode_uvarint_from_bytes(data, offset)`: returns
`(value, bytes_read)`, with `bytes_read = -1` when the buffer ends
before the continuation bit clears. -/
def decodeUvarintFromBytes (data : List Nat) (offset : Int) :
    Except PyErr (Nat × Int) :=
  decodeUvarintGo data ((data.length : Int) - offset).toNat offset 0 0 0

/-- Modelled from the spec: `decode_shifted_varint_from_bytes` is
imported by `async_decoder.py` from `decoder.py` but is absent from
the sources under `src/`.  Spec §4.2: after reading the base-128
composite `u` the shifted-varint value is `u >> 1` (the low bit is a
reserved flag that is discarded), and the bytes-consumed count is
reported exactly as for the unsigned decoder. -/
def decodeShiftedVarintFromBytes (data : List Nat) (offset : Int) :
    Except PyErr (Nat × Int) := do
  let (u, n) ← decodeUvarintFromBytes data offset
  .ok (u >>> 1, n)

/-- `_encode_uvarint` from `tests/test_async_decoder.py`: the base-128
LSB-first encoder used by the repository's own tests. -/
def encodeUvarint (value : Nat) : List Nat :=
  if h : value > 0x7f then
    ((value &&& 0x7f) ||| 0x80) :: encodeUvarint (value >>> 7)
  else [value &&& 0x7f]
termination_by value
decreasing_by
  simp only [Nat.shiftRight_eq_div_pow]
  omega

/-! ### Fixed-width integers (`struct.unpack`) -/

/-- Little-endian byte composition (first byte least significant). -/
def leCombine : List Nat → Nat
  | [] => 0
  | b :: rest => b + 256 * leCombine rest

/-- `struct.unpack("<Q", bs)[0]`: requires exactly 8 bytes. -/
def unpackUInt64LE (bs : List Nat) : Except PyErr Nat :=
  if bs.length = 8 then .ok (leCombine bs)
  else .error (.structError "unpack requires a buffer of 8 bytes")

/-- Two's-complement reading of a 32-bit value. -/
def toSigned32 (u : Nat) : Int :=
  if u % 2 ^ 32 < 2 ^ 31 then (u % 2 ^ 32 : Int)
  else (u % 2 ^ 32 : Int) - 2 ^ 32

/-- `struct.unpack("<i", bs)[0]`: requires exactly 4 bytes. -/
def unpackInt32LE (bs : List Nat) : Except PyErr Int :=
  if bs.length = 4 then .ok (toSigned32 (leCombine bs))
  else .error (.structError "unpack requires a buffer of 4 bytes")

/-! ### Data model (`decoder.py` dataclasses, reused by the async decoder) -/

/-- Journal opcodes (`class Opcode(IntEnum)`). -/
def opNOP : Nat := 0
def opOLDSTYLE_EVENT : Nat := 1
def opOLDSTYLE_EVENT_WITH_HASH : Nat := 2
def opNEW_HOST : Nat := 3
def opNEW_SOURCE : Nat := 4
def opNEW_SOURCE_TYPE : Nat := 5
def opNEW_STRING : Nat := 6
def opSPLUNK_PRIVATE : Nat := 9
def opHEADER : Nat := 10

/-- `RMKI_TYPES`: the `extra_ints_needed` field of each defined
representation code (`RawdataMetaKeyItemType`); undefined codes give
`none` (Python `dict.get` returning `None`). -/
def rmkiExtraIntsNeeded (code : Nat) : Option Nat :=
  if code = 0 then some 1
  else if code = 2 then some 1
  else if code = 3 then some 2
  else if code = 4 then some 2
  else if code = 6 then some 2
  else if code = 7 then some 3
  else if code = 8 then some 1
  else if code = 9 then some 1
  else if code = 10 then some 1
  else if code = 11 then some 2
  else if code = 12 then some 3
  else if code = 14 then some 2
  else if code = 15 then some 0
  else none

/-- Value stored for one metadata field: a scalar on the first
insertion, a list once the field repeats (`decode_metadata`). -/
inductive MetaVal where
  | scalar (v : PyStr)
  | vlist (vs : List PyStr)
deriving Repr, DecidableEq

/-- `event.metadata_fields`: a Python dict, modelled as an ordered
association list (insertion order, unique keys). -/
abbrev MetaFields := List (PyStr × MetaVal)

/-- The mutable `Event` object.  The fields up to `include_punctuation`
are the dataclass fields of `decoder.py`; the remaining ones are the
attributes the async decoder creates dynamically
(`index_time_diff`, `time_sub_seconds`, `event_time`,
`metadata_fields`, `source`, `sourcetype`, `host`).  The dynamic
attributes are given initial defaults here; the decoder never reads
them before assigning them. -/
structure Event where
  message_length : Int := 0
  has_extended_storage : Bool := false
  extended_storage_len : Nat := 0
  has_hash : Bool := false
  hash : List Nat := List.replicate 20 0
  stream_id : Nat := 0
  stream_offset : Nat := 0
  stream_sub_offset : Nat := 0
  index_time : Int := 0
  sub_seconds : Nat := 0
  metadata_count : Nat := 0
  message : List Nat := []
  include_punctuation : Bool := false
  index_time_diff : Nat := 0
  time_sub_seconds : Nat := 0
  event_time : Int := 0
  metadata_fields : MetaFields := []
  source : PyStr := []
  sourcetype : PyStr := []
  host : PyStr := []
deriving Repr, DecidableEq

/-- `Event.reset()`: restores the dataclass fields only.  The
dynamically created attributes (`index_time_diff`,
`time_sub_seconds`, `event_time`, `metadata_fields`, `source`,
`sourcetype`, `host`) are not touched by `reset` and therefore carry
over from the previous event until reassigned. -/
def Event.resetPy (e : Event) : Event :=
  { e with
    message_length := 0
    has_extended_storage := false
    extended_storage_len := 0
    has_hash := false
    hash := List.replicate 20 0
    stream_id := 0
    stream_offset := 0
    stream_sub_offset := 0
    index_time := 0
    sub_seconds := 0
    metadata_count := 0
    message := []
    include_punctuation := false }

/-- State of `AsyncJournalDecoder`.  `self.fields` is a dict keyed by
the four symbol opcodes; each entry is `none` until the first append
(`key in self.fields` is `Option.isSome`). -/
structure Decoder where
  opcode : Nat := 0
  event : Event := {}
  error : Option PyErr := none
  hosts : Option (List PyStr) := none
  sources : Option (List PyStr) := none
  sourcetypes : Option (List PyStr) := none
  strings : Option (List PyStr) := none
  base_event_time : Int := 0
  base_index_time : Int := 0
  active_host : Nat := 0
  active_source : Nat := 0
  active_source_type : Nat := 0
deriving Repr, DecidableEq

/-- A fresh `AsyncJournalDecoder`. -/
def initDecoder : Decoder := {}

/-- `AsyncJournalDecoder.host()`: empty string when the host table was
never created or the active index is 0; otherwise
`self.fields[NEW_HOST][self.active_host - 1]`, which raises
`IndexError` when the 1-based index exceeds the table. -/
def hostFn (d : Decoder) : Except PyErr PyStr :=
  match d.hosts with
  | some tbl =>
    if d.active_host > 0 then
      match pyListGet tbl ((d.active_host : Int) - 1) with
      | some v => .ok v
      | none => .error (.indexError "list index out of range")
    else .ok []
  | none => .ok []

/-- `AsyncJournalDecoder.source()`. -/
def sourceFn (d : Decoder) : Except PyErr PyStr :=
  match d.sources with
  | some tbl =>
    if d.active_source > 0 then
      match pyListGet tbl ((d.active_source : Int) - 1) with
      | some v => .ok v
      | none => .error (.indexError "list index out of range")
    else .ok []
  | none => .ok []

/-- `AsyncJournalDecoder.source_type()`. -/
def sourceTypeFn (d : Decoder) : Except PyErr PyStr :=
  match d.sourcetypes with
  | some tbl =>
    if d.active_source_type > 0 then
      match pyListGet tbl ((d.active_source_type : Int) - 1) with
      | some v => .ok v
      | none => .error (.indexError "list index out of range")
    else .ok []
  | none => .ok []

/-- `_is_event_opcode`. -/
def isEventOpcode (opcode : Nat) : Bool :=
  opcode == opOLDSTYLE_EVENT || opcode == opOLDSTYLE_EVENT_WITH_HASH ||
    (32 ≤ opcode && opcode ≤ 43)

/-! ### Metadata decoding (`async_decoder.py`) -/

/-- `AsyncJournalDecoder.decode_field(key, value)`: both indices are
decremented and looked up in the generic string table.  The dict
access `self.fields[Opcode.NEW_STRING]` sits *outside* the
`try`, so a missing table raises `KeyError`; a failing list lookup is
caught and replaced by the sentinel tuple
`("exc", str(e))` with `str(IndexError(...)) = "list index out of
range"`. -/
def decodeField (strings : Option (List PyStr)) (key value : Nat) :
    Except PyErr (PyStr × PyStr) :=
  match strings with
  | none => .error (.keyError opNEW_STRING)
  | some tbl =>
    match pyListGet tbl ((key : Int) - 1) with
    | none => .ok (pystr "exc", pystr "list index out of range")
    | some fk =>
      match pyListGet tbl ((value : Int) - 1) with
      | none => .ok (pystr "exc", pystr "list index out of range")
      | some fv => .ok (fk, fv)

/-- The `metadata_fields` insertion rule of `decode_metadata`: first
occurrence stores a scalar, the second promotes to a two-element
list, later occurrences append. -/
def mfInsert (mf : MetaFields) (f v : PyStr) : MetaFields :=
  if mf.any (fun p => p.1 == f) then
    mf.map (fun p =>
      if p.1 == f then
        (p.1,
          match p.2 with
          | .vlist vs => MetaVal.vlist (vs ++ [v])
          | .scalar v0 => MetaVal.vlist [v0, v])
      else p)
  else mf ++ [(f, MetaVal.scalar v)]

/-- Folding a sequence of resolved `(field, value)` pairs into
`metadata_fields` in decode order, starting from the empty dict that
`decode_metadata` installs. -/
def mfRun (pairs : List (PyStr × PyStr)) : MetaFields :=
  pairs.foldl (fun mf p => mfInsert mf p.1 p.2) []

/-- Dict lookup in `metadata_fields`. -/
def mfLookup (mf : MetaFields) (f : PyStr) : Option MetaVal :=
  match mf.find? (fun p => p.1 == f) with
  | some p => some p.2
  | none => none

/-- Extra-integer loop of `_read_metadata`.  Python appends
`(rest, long_val)` *before* checking `n == -1`; evaluating `rest`
raises `UnboundLocalError` when the legacy branch (`opcode <= 2`)
was taken, because that branch never assigns `rest`. -/
def readMetaExtras (peek : List Nat) (offset : Int) (rest : Option Nat) :
    Nat → Int → List (Nat × Nat) → Except PyErr (Int × List (Nat × Nat))
  | 0, pk, acc => .ok (pk, acc)
  | num + 1, pk, acc => do
    let (longVal, n) ← decodeUvarintFromBytes peek (offset + pk)
    match rest with
    | none => .error (.unboundLocalError "rest")
    | some r =>
      if n == -1 then .error (.valueError "Cannot read varint for metadata value")
      else readMetaExtras peek offset rest num (pk + n) (acc ++ [(r, longVal)])

/-- `AsyncJournalDecoder._read_metadata(peek, offset)`: reads one
metadata entry, returning `(bytes_consumed, pairs)`.  In the legacy
branch (`opcode <= 2`) Python computes `meta_key <<= 3` (dead: the
shifted key is never read) and sets `num_to_read = 1` without
assigning `rest`, so the extras loop raises `UnboundLocalError`. -/
def readMetadata (opcode : Nat) (peek : List Nat) (offset : Int) :
    Except PyErr (Int × List (Nat × Nat)) := do
  let (metaKey, n) ← decodeUvarintFromBytes peek offset
  if n == -1 then .error (.valueError "Cannot read varint for metadata key")
  else
    let pk : Int := n
    if opcode ≤ 2 then
      readMetaExtras peek offset none 1 pk []
    else
      let metaKey1 := if opcode < 36 then metaKey <<< 2 else metaKey
      let rmkiKey := metaKey1 &&& 0xF
      let rest := metaKey1 >>> 4
      let numToRead :=
        match rmkiExtraIntsNeeded rmkiKey with
        | some k => k
        | none => 0
      readMetaExtras peek offset (some rest) numToRead pk []

/-- Inner pair loop of `decode_metadata`: resolve each pair with
`decode_field` and insert it. -/
def insertPairs (strings : Option (List PyStr)) :
    List (Nat × Nat) → MetaFields → Except PyErr MetaFields
  | [], mf => .ok mf
  | (fi, vi) :: rest, mf => do
    let (f, v) ← decodeField strings fi vi
    insertPairs strings rest (mfInsert mf f v)

/-- Entry loop of `decode_metadata` (`for i in range(metadata_count)`). -/
def decodeMetadataGo (opcode : Nat) (strings : Option (List PyStr))
    (buffer : List Nat) :
    Nat → Int → MetaFields → Except PyErr (Int × MetaFields)
  | 0, off, mf => .ok (off, mf)
  | count + 1, off, mf => do
    let (n, metaIndex) ← readMetadata opcode buffer off
    let off1 := off + n
    let mf1 ← insertPairs strings metaIndex mf
    decodeMetadataGo opcode strings buffer count off1 mf1

/-- `AsyncJournalDecoder.decode_metadata(buffer)`: resets
`event.metadata_fields` to the empty dict, decodes
`metadata_count` entries and returns the bytes consumed together
with the new dict. -/
def decodeMetadata (opcode : Nat) (strings : Option (List PyStr))
    (count : Nat) (buffer : List Nat) : Except PyErr (Int × MetaFields) :=
  decodeMetadataGo opcode strings buffer count 0 []

/-! ### Event decoding (`AsyncJournalDecoder._decode_event`) -/

/-- Extended-storage step of the `_decode_event` header parse (the
`if self.opcode & 0x4 != 0` block). -/
def peiExtStorage (opcode : Nat) (peek : List Nat) (e : Event) (offset : Int) :
    Except PyErr (Event × Int) :=
  if opcode &&& 0x4 != 0 then do
    let (v, n) ← decodeUvarintFromBytes peek offset
    pure ({ e with has_extended_storage := true, extended_storage_len := v },
          offset + n)
  else pure (e, offset)

/-- Hash step of the `_decode_event` header parse (the
`if self.opcode & 0x01 == 0` block). -/
def peiHash (opcode : Nat) (peek : List Nat) (e : Event) (offset : Int) :
    Except PyErr (Event × Int) :=
  if opcode &&& 0x1 == 0 then
    pure ({ e with has_hash := true, hash := pySlice peek offset (offset + 20) },
          offset + 20)
  else pure (e, offset)

/-- First half of `_decode_event`: the fields parsed out of the peeked
`EVENT_INFO_SIZE` window, applied to the current event object in
source order.  `pos` is `self.reader.pos` (the position right after
the opcode byte; `peek` does not advance it).  Returns the updated
event and the final `offset`, which `_decode_event` then passes to
`skip`. -/
def parseEventInfo (opcode : Nat) (peek : List Nat) (pos : Nat)
    (baseIndexTime baseEventTime : Int) (e0 : Event) :
    Except PyErr (Event × Int) := do
  -- message_length (the raw wire value M), then
  -- `self.event.message_length += self.reader.pos + offset`
  let (u, n) ← decodeUvarintFromBytes peek 0
  let offset : Int := 0 + n
  let e := { e0 with message_length := (u : Int) + pos + offset }
  -- extended storage
  let (e, offset) ← peiExtStorage opcode peek e offset
  -- hash
  let (e, offset) ← peiHash opcode peek e offset
  -- stream_id (uint64, little endian)
  let sid ← unpackUInt64LE (pySlice peek offset (offset + 8))
  let e := { e with stream_id := sid }
  let offset := offset + 8
  -- stream_offset
  let (v, n) ← decodeUvarintFromBytes peek offset
  let e := { e with stream_offset := v }
  let offset := offset + n
  -- stream_sub_offset
  let (v, n) ← decodeUvarintFromBytes peek offset
  let e := { e with stream_sub_offset := v }
  let offset := offset + n
  -- index_time_diff, then index_time = base_index_time + diff
  let (v, n) ← decodeUvarintFromBytes peek offset
  let e := { e with index_time_diff := v }
  let offset := offset + n
  let e := { e with index_time := baseIndexTime + (e.index_time_diff : Int) }
  -- time_sub_seconds (shifted varint), then
  -- event_time = base_event_time * 1000 + time_sub_seconds
  let (v, n) ← decodeShiftedVarintFromBytes peek offset
  let e := { e with time_sub_seconds := v }
  let offset := offset + n
  let e := { e with event_time := baseEventTime * 1000 + (e.time_sub_seconds : Int) }
  -- metadata_count
  let (v, n) ← decodeUvarintFromBytes peek offset
  let e := { e with metadata_count := v }
  let offset := offset + n
  pure (e, offset)

/-- `EVENT_INFO_SIZE = 8 * 10 + 8 + HASH_SIZE`. -/
def EVENT_INFO_SIZE : Nat := 8 * 10 + 8 + 20

/-- Metadata block of `_decode_event`
(`if self.event.metadata_count > 0`). -/
def deMetadataStep (opcode : Nat) (strings : Option (List PyStr))
    (e : Event) (s : JStream) : Except PyErr (Event × JStream) :=
  if e.metadata_count > 0 then do
    let metadataPeek := speek s ((4 * 10 * e.metadata_count : Nat) : Int)
    let (n, mf) ← decodeMetadata opcode strings e.metadata_count metadataPeek
    let s ← sskip s n
    pure ({ e with metadata_fields := mf }, s)
  else pure (e, s)

/-- Extended-storage block of `_decode_event`
(`if self.event.has_extended_storage`: the bytes are read and
discarded). -/
def deExtStorageStep (e : Event) (s : JStream) : Except PyErr JStream :=
  if e.has_extended_storage then do
    let (_eStorage, s) ← sread s (e.extended_storage_len : Int)
    pure s
  else pure s

/-- `AsyncJournalDecoder._decode_event()`. -/
def decodeEvent (d : Decoder) (s : JStream) : Except PyErr (Decoder × JStream) := do
  let peek := speek s (EVENT_INFO_SIZE : Int)
  let (e, offset) ←
    parseEventInfo d.opcode peek s.pos d.base_index_time d.base_event_time d.event
  -- discard what we peeked
  let s ← sskip s offset
  -- read metadata
  let (e, s) ← deMetadataStep d.opcode d.strings e s
  -- extended storage (read and discarded)
  let s ← deExtStorageStep e s
  -- calculate actual message length, read message
  let e := { e with message_length := e.message_length - (s.pos : Int) }
  let (msg, s) ← sread s e.message_length
  let e := { e with message := msg }
  let e := { e with include_punctuation := (d.opcode &&& 0x22) == 34 }
  let src ← sourceFn d
  let e := { e with source := src }
  let stype ← sourceTypeFn d
  let e := { e with sourcetype := stype }
  let h ← hostFn d
  let e := { e with host := h }
  pure ({ d with event := e }, s)

/-! ### Non-event opcode handlers -/

/-- `_decode_header`: 1 byte version, 1 byte align-bits, 4-byte LE i32
`base_index_time`. -/
def decodeHeader (d : Decoder) (s : JStream) : Except PyErr (Decoder × JStream) := do
  let (bytes, s) ← sread s 6
  let base ← unpackInt32LE (pySlice bytes 2 6)
  pure ({ d with base_index_time := base }, s)

/-- `_decode_splunk_private`: uvarint length, then skip. -/
def decodeSplunkPrivate (d : Decoder) (s : JStream) :
    Except PyErr (Decoder × JStream) := do
  let (length, s) ← readUvarintS s
  let s ← sskip s (length : Int)
  pure (d, s)

/-- `_read_string_field`: uvarint length then that many bytes (the
UTF-8-with-replacement decode is not modelled; see the header
comment). -/
def readStringField (s : JStream) : Except PyErr (PyStr × JStream) := do
  let (length, s) ← readUvarintS s
  let (bytes, s) ← sread s (length : Int)
  pure (bytes, s)

/-- `_decode_host`. -/
def decodeHost (d : Decoder) (s : JStream) : Except PyErr (Decoder × JStream) := do
  let (v, s) ← readStringField s
  pure ({ d with hosts := some ((d.hosts.getD []) ++ [v]) }, s)

/-- `_decode_source`. -/
def decodeSource (d : Decoder) (s : JStream) : Except PyErr (Decoder × JStream) := do
  let (v, s) ← readStringField s
  pure ({ d with sources := some ((d.sources.getD []) ++ [v]) }, s)

/-- `_decode_source_type`. -/
def decodeSourceType (d : Decoder) (s : JStream) :
    Except PyErr (Decoder × JStream) := do
  let (v, s) ← readStringField s
  pure ({ d with sourcetypes := some ((d.sourcetypes.getD []) ++ [v]) }, s)

/-- `_decode_string`. -/
def decodeString (d : Decoder) (s : JStream) : Except PyErr (Decoder × JStream) := do
  let (v, s) ← readStringField s
  pure ({ d with strings := some ((d.strings.getD []) ++ [v]) }, s)

/-- Active-host bit of `_decode_new_state`. -/
def dnsHost (d : Decoder) (s : JStream) : Except PyErr (Decoder × JStream) :=
  if d.opcode &&& 0x8 != 0 then do
    let (v, s) ← readUvarintS s
    pure ({ d with active_host := v }, s)
  else pure (d, s)

/-- Active-source bit of `_decode_new_state`. -/
def dnsSource (d : Decoder) (s : JStream) : Except PyErr (Decoder × JStream) :=
  if d.opcode &&& 0x4 != 0 then do
    let (v, s) ← readUvarintS s
    pure ({ d with active_source := v }, s)
  else pure (d, s)

/-- Active-sourcetype bit of `_decode_new_state`. -/
def dnsSourceType (d : Decoder) (s : JStream) :
    Except PyErr (Decoder × JStream) :=
  if d.opcode &&& 0x2 != 0 then do
    let (v, s) ← readUvarintS s
    pure ({ d with active_source_type := v }, s)
  else pure (d, s)

/-- Base-time bit of `_decode_new_state`. -/
def dnsBaseTime (d : Decoder) (s : JStream) :
    Except PyErr (Decoder × JStream) :=
  if d.opcode &&& 0x1 != 0 then do
    let (bytes, s) ← sread s 4
    let v ← unpackInt32LE bytes
    pure ({ d with base_event_time := v }, s)
  else pure (d, s)

/-- `_decode_new_state` (opcodes 17-31): each set low bit reads a new
value in the fixed order host, source, sourcetype, base time. -/
def decodeNewState (d : Decoder) (s : JStream) :
    Except PyErr (Decoder × JStream) := do
  let (d, s) ← dnsHost d s
  let (d, s) ← dnsSource d s
  let (d, s) ← dnsSourceType d s
  dnsBaseTime d s

/-- `_decode_next`: dispatch on `self.opcode` (the Python f-string hex
formatting of the unknown-opcode message is elided). -/
def decodeNext (d : Decoder) (s : JStream) : Except PyErr (Decoder × JStream) :=
  if d.opcode = opHEADER then decodeHeader d s
  else if d.opcode = opSPLUNK_PRIVATE then decodeSplunkPrivate d s
  else if d.opcode = opNEW_HOST then decodeHost d s
  else if d.opcode = opNEW_SOURCE then decodeSource d s
  else if d.opcode = opNEW_SOURCE_TYPE then decodeSourceType d s
  else if d.opcode = opNEW_STRING then decodeString d s
  else if d.opcode = opNOP then .ok (d, s)
  else if 17 ≤ d.opcode ∧ d.opcode ≤ 31 then decodeNewState d s
  else if isEventOpcode d.opcode then decodeEvent d s
  else .error (.valueError "Unknown opcode")

/-! ### The scan loop (`AsyncJournalDecoder.scan`) -/

/-- The state updates `scan` performs before dispatching: store the
opcode, and reset the current event if it is an event opcode. -/
def dispatchSet (d : Decoder) (b : Nat) : Decoder :=
  if isEventOpcode b then { d with opcode := b, event := d.event.resetPy }
  else { d with opcode := b }

/-- Loop body of `scan()`.  In this model the only exception
`read_byte` can raise is `EOFError` (the in-memory byte source never
fails), which `scan` maps to `error = None, return False`; a decode
error is stored in `self.error`.  Each iteration consumes at least
the opcode byte, so `data.length + 1` iterations always suffice; the
fuel-exhausted case is unreachable. -/
def scanFuel : Nat → Decoder → JStream → Bool × Decoder × JStream
  | 0, d, s => (false, d, s)
  | fuel + 1, d, s =>
    match readByte s with
    | .error _ => (false, { d with error := none }, s)
    | .ok (b, s1) =>
      let d1 := dispatchSet d b
      match decodeNext d1 s1 with
      | .error e => (false, { d1 with error := some e }, s1)
      | .ok (d2, s2) =>
        if isEventOpcode d2.opcode then (true, d2, s2)
        else scanFuel fuel d2 s2

/-- `AsyncJournalDecoder.scan()`. -/
def scan (d : Decoder) (s : JStream) : Bool × Decoder × JStream :=
  scanFuel (s.data.length + 1) d s

/-! ### Observables used by the claim statements -/

/-- Whether an `Except` computation succeeded. -/
def isOkE {α : Type} (r : Except PyErr α) : Bool :=
  match r with
  | .ok _ => true
  | .error _ => false

/-- Event observed after a direct `_decode_event` call (the current
event unchanged on error). -/
def eventAfter (d : Decoder) (s : JStream) : Event :=
  match decodeEvent d s with
  | .ok (d1, _) => d1.event
  | .error _ => d.event

/-- Stream position after a direct `_decode_event` call. -/
def posAfterEvent (d : Decoder) (s : JStream) : Nat :=
  match decodeEvent d s with
  | .ok (_, s1) => s1.pos
  | .error _ => s.pos

/-- `base_index_time` observed after a `_decode_header` call. -/
def baseAfterHeader (d : Decoder) (s : JStream) : Int :=
  match decodeHeader d s with
  | .ok (d1, _) => d1.base_index_time
  | .error _ => d.base_index_time

/-! ## Proofs

### Inversion helpers for the `Except` monad -/

theorem exc_bind_ok {α β : Type} (a : α) (f : α → Except PyErr β) :
    (Except.ok a >>= f) = f a := rfl

theorem exc_bind_error {α β : Type} (e : PyErr) (f : α → Except PyErr β) :
    ((Except.error e : Except PyErr α) >>= f) = Except.error e := rfl

theorem exc_bind_eq_ok {α β : Type} {x : Except PyErr α}
    {f : α → Except PyErr β} {b : β} :
    (x >>= f) = .ok b ↔ ∃ a, x = .ok a ∧ f a = .ok b := by
  cases x with
  | error e =>
    rw [exc_bind_error]
    constructor
    · intro hc; cases hc
    · rintro ⟨a, hc, -⟩; cases hc
  | ok a =>
    rw [exc_bind_ok]
    constructor
    · intro hfa; exact ⟨a, rfl, hfa⟩
    · rintro ⟨a2, ha2, hfa⟩
      cases ha2
      exact hfa

/-! ### The uvarint decode loop on a suffix (proof-internal reformulation)

`decodeUvarintLoop` re-expresses the index-driven Python loop
structurally on the list suffix starting at the offset; the bridge
lemma below shows the two agree for nonnegative offsets. -/

def decodeUvarintLoop : List Nat → Nat → Nat → Nat → Nat × Int
  | [], _, _, _ => (0, -1)
  | b :: rest, result, shift, n =>
    let n1 := n + 1
    let result1 := result ||| ((b &&& 0x7f) <<< shift)
    if b &&& 0x80 == 0 then (result1, (n1 : Int))
    else decodeUvarintLoop rest result1 (shift + 7) n1

theorem pyIndex_nonneg (data : List Nat) (i : Int) (h0 : 0 ≤ i)
    (hlt : i < (data.length : Int)) :
    pyIndex data i = .ok (data.get ⟨i.toNat, by omega⟩) := by
  unfold pyIndex
  have hneg : ¬ i < 0 := by omega
  simp only [hneg, if_false]
  rw [dif_pos ⟨h0, hlt⟩]

theorem decodeUvarintGo_eq_loop (data : List Nat) :
    ∀ (fuel : Nat) (i : Int), 0 ≤ i →
    fuel = ((data.length : Int) - i).toNat →
    ∀ (r sh n : Nat),
      decodeUvarintGo data fuel i r sh n =
        .ok (decodeUvarintLoop (data.drop i.toNat) r sh n) := by
  intro fuel
  induction fuel with
  | zero =>
    intro i h0 hf r sh n
    have hlen : data.length ≤ i.toNat := by omega
    rw [List.drop_eq_nil_of_le hlen]
    rfl
  | succ fuel ih =>
    intro i h0 hf r sh n
    have hlt : i < (data.length : Int) := by omega
    have hltn : i.toNat < data.length := by omega
    rw [show decodeUvarintGo data (fuel + 1) i r sh n = do
          let b ← pyIndex data i
          let n1 := n + 1
          let result1 := r ||| ((b &&& 0x7f) <<< sh)
          if b &&& 0x80 == 0 then .ok (result1, (n1 : Int))
          else decodeUvarintGo data fuel (i + 1) result1 (sh + 7) n1
        from rfl]
    rw [pyIndex_nonneg data i h0 hlt]
    rw [List.drop_eq_getElem_cons hltn]
    have hg : data.get ⟨i.toNat, hltn⟩ = data[i.toNat] := rfl
    show (if (data.get ⟨i.toNat, hltn⟩) &&& 0x80 == 0 then _ else _) = _
    simp only [decodeUvarintLoop, hg]
    by_cases hb : (data[i.toNat] &&& 0x80 == 0)
    · rw [if_pos hb, if_pos hb]
    · rw [if_neg hb, if_neg hb]
      rw [ih (i + 1) (by omega) (by omega)]
      have h1 : (i + 1).toNat = i.toNat + 1 := by omega
      rw [h1]

theorem decodeUvarintFromBytes_nonneg (data : List Nat) (offset : Int)
    (h0 : 0 ≤ offset) :
    decodeUvarintFromBytes data offset =
      .ok (decodeUvarintLoop (data.drop offset.toNat) 0 0 0) := by
  unfold decodeUvarintFromBytes
  exact decodeUvarintGo_eq_loop data _ offset h0 rfl 0 0 0

/-! ### Round trip of the test-suite encoder through the decoder loop -/

theorem decodeUvarintLoop_encode :
    ∀ (x acc shift n : Nat), acc < 2 ^ shift →
      decodeUvarintLoop (encodeUvarint x) acc shift n =
        (acc + x * 2 ^ shift, ((n + (encodeUvarint x).length : Nat) : Int)) := by
  intro x
  induction x using Nat.strong_induction_on with
  | _ x ih =>
    intro acc shift n hacc
    rw [encodeUvarint]
    have hmod : x &&& 0x7f = x % 128 := by
      have := Nat.and_pow_two_sub_one_eq_mod x 7
      norm_num at this
      omega
    by_cases hx : x > 0x7f
    · rw [dif_pos hx]
      have hb7 : ((x &&& 0x7f) ||| 0x80) &&& 0x7f = x &&& 0x7f := by
        rw [Nat.and_distrib_right]
        have h1 : (0x80 : Nat) &&& 0x7f = 0 := by decide
        have h2 : (x &&& 0x7f) &&& 0x7f = x &&& 0x7f := by
          rw [Nat.and_assoc]
          norm_num
        rw [h1, h2, Nat.or_zero]
      have hb8 : ((x &&& 0x7f) ||| 0x80) &&& 0x80 = 0x80 := by
        rw [Nat.and_distrib_right]
        have h1 : (0x80 : Nat) &&& 0x80 = 0x80 := by decide
        have h2 : (x &&& 0x7f) &&& 0x80 = x &&& (0x7f &&& 0x80) := Nat.and_assoc ..
        have h3 : (0x7f : Nat) &&& 0x80 = 0 := by decide
        rw [h1, h2, h3, Nat.and_zero, Nat.zero_or]
      rw [decodeUvarintLoop]
      simp only [hb7, hb8]
      norm_num
      have hor : acc ||| ((x &&& 0x7f) <<< shift) = acc + (x % 128) * 2 ^ shift := by
        rw [hmod, Nat.shiftLeft_eq, Nat.lor_comm, Nat.mul_comm (x % 128) (2 ^ shift),
          ← Nat.mul_add_lt_is_or hacc (x % 128)]
        omega
      rw [hor]
      have hacc7 : acc + x % 128 * 2 ^ shift < 2 ^ (shift + 7) := by
        have h1 : x % 128 ≤ 127 := by omega
        have h2 : (x % 128) * 2 ^ shift ≤ 127 * 2 ^ shift :=
          Nat.mul_le_mul_right (2 ^ shift) h1
        have h3 : 2 ^ shift + 127 * 2 ^ shift = 2 ^ (shift + 7) := by
          rw [pow_add]
          ring
        omega
      rw [ih (x >>> 7) (by
            rw [Nat.shiftRight_eq_div_pow]
            exact Nat.div_lt_self (by omega) (by norm_num))
          _ _ _ hacc7]
      simp only [Prod.mk.injEq]
      refine ⟨?_, ?_⟩
      · rw [Nat.shiftRight_eq_div_pow]
        have hx1 : x % 128 + 128 * (x / 128) = x := Nat.mod_add_div x 128
        have hp : (2:Nat) ^ (shift + 7) = 2 ^ shift * 128 := by
          rw [pow_add]; norm_num
        rw [hp]
        norm_num
        nlinarith [hx1]
      · push_cast
        ring
    · rw [dif_neg hx]
      have hb8 : (x &&& 0x7f) &&& 0x80 = 0 := by
        rw [hmod]
        have h1 : x % 128 &&& 0x80 = x % 128 &&& 2 ^ 7 := by norm_num
        rw [h1, Nat.and_two_pow, Nat.testBit_lt_two_pow (by norm_num; omega)]
        rfl
      rw [decodeUvarintLoop]
      simp only [hb8]
      norm_num
      have h2 : (x &&& 0x7f) &&& 0x7f = x &&& 0x7f := by
        rw [Nat.and_assoc]
        norm_num
      rw [h2]
      have hxe : x &&& 0x7f = x := by omega
      rw [hxe]
      have hor : acc ||| (x <<< shift) = acc + x * 2 ^ shift := by
        rw [Nat.shiftLeft_eq, Nat.lor_comm, Nat.mul_comm x (2 ^ shift),
          ← Nat.mul_add_lt_is_or hacc x]
        omega
      rw [hor]

/-! ### Metadata-field accumulation (C5) -/

/-- One occurrence of a field applied to its current dict entry: the
branch structure of the insertion in `decode_metadata`. -/
def mfPush (cur : Option MetaVal) (v : PyStr) : MetaVal :=
  match cur with
  | none => .scalar v
  | some (.scalar v0) => .vlist [v0, v]
  | some (.vlist vs) => .vlist (vs ++ [v])

theorem mfInsert_preserves_key (f v : PyStr) (p : PyStr × MetaVal) :
    ((fun q : PyStr × MetaVal =>
        if q.1 == f then
          (q.1,
            match q.2 with
            | .vlist vs => MetaVal.vlist (vs ++ [v])
            | .scalar v0 => MetaVal.vlist [v0, v])
        else q) p).1 = p.1 := by
  dsimp only
  split <;> rfl

theorem mfLookup_insert_self (mf : MetaFields) (f v : PyStr) :
    mfLookup (mfInsert mf f v) f = some (mfPush (mfLookup mf f) v) := by
  unfold mfInsert
  by_cases hany : mf.any (fun p => p.1 == f)
  · rw [if_pos hany]
    unfold mfLookup
    rw [List.find?_map]
    have hcomp : ((fun q : PyStr × MetaVal => q.1 == f) ∘ (fun q : PyStr × MetaVal =>
        if q.1 == f then
          (q.1,
            match q.2 with
            | .vlist vs => MetaVal.vlist (vs ++ [v])
            | .scalar v0 => MetaVal.vlist [v0, v])
        else q)) = fun q : PyStr × MetaVal => q.1 == f := by
      funext q
      simp only [Function.comp_apply]
      rw [mfInsert_preserves_key]
    rw [hcomp]
    cases hfind : mf.find? (fun q : PyStr × MetaVal => q.1 == f) with
    | none =>
      rw [List.find?_eq_none] at hfind
      rw [List.any_eq_true] at hany
      obtain ⟨x, hx, hpx⟩ := hany
      exact absurd hpx (hfind x hx)
    | some p0 =>
      have hp0 := List.find?_some hfind
      simp only [Option.map_some', hp0, if_true, mfPush]
      cases hv : p0.2 <;> simp [hv]
  · rw [if_neg hany]
    unfold mfLookup
    rw [List.find?_append]
    have hnone : mf.find? (fun q : PyStr × MetaVal => q.1 == f) = none := by
      rw [List.find?_eq_none]
      intro x hx
      rw [Bool.not_eq_true]
      rw [Bool.eq_false_iff]
      intro hpx
      exact hany (List.any_eq_true.mpr ⟨x, hx, hpx⟩)
    rw [hnone]
    simp only [Option.none_or, List.find?_cons, List.find?_nil]
    have : ((f, MetaVal.scalar v).1 == f) = true := by simp
    rw [this]
    rfl

theorem mfLookup_insert_ne (mf : MetaFields) (f v g : PyStr) (hfg : f ≠ g) :
    mfLookup (mfInsert mf f v) g = mfLookup mf g := by
  unfold mfInsert
  by_cases hany : mf.any (fun p => p.1 == f)
  · rw [if_pos hany]
    unfold mfLookup
    rw [List.find?_map]
    have hcomp : ((fun q : PyStr × MetaVal => q.1 == g) ∘ (fun q : PyStr × MetaVal =>
        if q.1 == f then
          (q.1,
            match q.2 with
            | .vlist vs => MetaVal.vlist (vs ++ [v])
            | .scalar v0 => MetaVal.vlist [v0, v])
        else q)) = fun q : PyStr × MetaVal => q.1 == g := by
      funext q
      simp only [Function.comp_apply]
      rw [mfInsert_preserves_key]
    rw [hcomp]
    cases hfind : mf.find? (fun q : PyStr × MetaVal => q.1 == g) with
    | none => rfl
    | some p0 =>
      have hp0 := List.find?_some hfind
      have hp0g : p0.1 = g := by
        exact eq_of_beq hp0
      have hne : (p0.1 == f) = false := by
        rw [Bool.eq_false_iff]
        intro hc
        exact hfg ((eq_of_beq hc) ▸ hp0g ▸ rfl)
      simp only [Option.map_some', hne, Bool.false_eq_true, if_false]
  · rw [if_neg hany]
    unfold mfLookup
    rw [List.find?_append]
    have hlast : List.find? (fun q : PyStr × MetaVal => q.1 == g)
        [(f, MetaVal.scalar v)] = none := by
      simp only [List.find?_cons, List.find?_nil]
      have : ((f, MetaVal.scalar v).1 == g) = false := by
        rw [Bool.eq_false_iff]
        intro hc
        exact hfg (eq_of_beq hc)
      rw [this]
    rw [hlast]
    cases mf.find? (fun q : PyStr × MetaVal => q.1 == g) <;> rfl

/-- The dict entry of `f` after folding occurrences, as a function of
the pending value list. -/
def accMeta (cur : Option MetaVal) : List PyStr → Option MetaVal
  | [] => cur
  | v :: vs => accMeta (some (mfPush cur v)) vs

theorem mfRun_foldl_lookup :
    ∀ (pairs : List (PyStr × PyStr)) (mf0 : MetaFields) (f : PyStr),
      mfLookup (pairs.foldl (fun mf p => mfInsert mf p.1 p.2) mf0) f =
        accMeta (mfLookup mf0 f)
          ((pairs.filter (fun p => p.1 == f)).map Prod.snd) := by
  intro pairs
  induction pairs with
  | nil => intro mf0 f; rfl
  | cons p rest ih =>
    intro mf0 f
    rw [List.foldl_cons]
    by_cases hpf : (p.1 == f) = true
    · have hp1 : p.1 = f := eq_of_beq hpf
      rw [List.filter_cons, if_pos hpf, List.map_cons]
      rw [ih]
      rw [hp1, mfLookup_insert_self]
      rfl
    · rw [List.filter_cons, if_neg (by simpa using hpf)]
      rw [ih]
      rw [mfLookup_insert_ne mf0 p.1 p.2 f
        (fun hc => hpf (beq_iff_eq.mpr hc))]

theorem accMeta_vlist (l : List PyStr) :
    ∀ vs : List PyStr,
      accMeta (some (MetaVal.vlist l)) vs = some (MetaVal.vlist (l ++ vs)) := by
  intro vs
  induction vs generalizing l with
  | nil => simp [accMeta]
  | cons v vs ih =>
    show accMeta (some (mfPush (some (MetaVal.vlist l)) v)) vs = _
    rw [show mfPush (some (MetaVal.vlist l)) v = MetaVal.vlist (l ++ [v]) from rfl]
    rw [ih]
    simp

/-- C5: within one event, a metadata field resolved `k` times maps to a
scalar when `k = 1` and to the list of its `k` values in decode order
when `k ≥ 2` (first insertion scalar, second promotes to
`[existing, value]`, later occurrences append). -/
theorem claim5_metadata_accumulation (pairs : List (PyStr × PyStr)) (f : PyStr) :
    mfLookup (mfRun pairs) f =
      match (pairs.filter (fun p => p.1 == f)).map Prod.snd with
      | [] => none
      | [v] => some (MetaVal.scalar v)
      | v0 :: v1 :: rest => some (MetaVal.vlist (v0 :: v1 :: rest)) := by
  unfold mfRun
  rw [mfRun_foldl_lookup pairs [] f]
  have hnil : mfLookup [] f = none := rfl
  rw [hnil]
  cases hm : (pairs.filter (fun p => p.1 == f)).map Prod.snd with
  | nil => rfl
  | cons v0 vs =>
    cases vs with
    | nil => rfl
    | cons v1 rest =>
      show accMeta (some (mfPush (some (mfPush none v0)) v1)) rest = _
      rw [show mfPush (some (mfPush none v0)) v1 = MetaVal.vlist [v0, v1] from rfl]
      rw [accMeta_vlist]
      simp

/-- C8: decoding the base-128 LSB-first encoding of any natural number
`x` (in particular every `x < 2 ^ 64`) with
`decode_uvarint_from_bytes` yields exactly `(x, n)` with `n` the
length of the encoding: `decode_uvarint(encode_uvarint(x)) == x`. -/
theorem claim8_uvarint_roundtrip (x : Nat) :
    decodeUvarintFromBytes (encodeUvarint x) 0 =
      .ok (x, ((encodeUvarint x).length : Int)) := by
  rw [decodeUvarintFromBytes_nonneg _ 0 le_rfl]
  show Except.ok (decodeUvarintLoop (encodeUvarint x) 0 0 0) = _
  rw [decodeUvarintLoop_encode x 0 0 0 (by norm_num)]
  norm_num


/-! ### Symbol-table lookup facts (C7, C10) -/

theorem pyListGet_of_nonneg_lt (tbl : List PyStr) (i : Int) (h0 : 0 ≤ i)
    (hlt : i < (tbl.length : Int)) :
    pyListGet tbl i = some (tbl.get ⟨i.toNat, by omega⟩) := by
  unfold pyListGet
  have hneg : ¬ i < 0 := by omega
  simp only [hneg, if_false]
  rw [dif_pos ⟨h0, hlt⟩]

theorem pyListGet_neg (tbl : List PyStr) (i : Int) (hneg : i < 0)
    (hge : -(tbl.length : Int) ≤ i) :
    pyListGet tbl i = some (tbl.get ⟨(i + tbl.length).toNat, by omega⟩) := by
  unfold pyListGet
  simp only [hneg, if_true]
  rw [dif_pos (by omega)]

theorem pyListGet_neg_one (tbl : List PyStr) (h : tbl ≠ []) :
    pyListGet tbl (-1) = some (tbl.getLast h) := by
  have hlen : 0 < tbl.length := List.length_pos.mpr h
  rw [pyListGet_neg tbl (-1) (by norm_num) (by omega)]
  have hidx : ((-1 : Int) + (tbl.length : Int)).toNat = tbl.length - 1 := by
    omega
  simp only [hidx]
  rw [List.getLast_eq_get tbl h]

theorem pyListGet_none_of_le (tbl : List PyStr) (i : Int)
    (hge : (tbl.length : Int) ≤ i) :
    pyListGet tbl i = none := by
  unfold pyListGet
  have h0 : 0 ≤ (tbl.length : Int) := by positivity
  have hneg : ¬ i < 0 := by omega
  simp only [hneg, if_false]
  rw [dif_neg (by omega)]

/-- C10: in `decode_field`, an index of 0 is decremented to `-1`, which
Python list indexing resolves to the *last* (most recently appended)
entry of the non-empty `STRINGS` table, so index 0 yields a real
table entry and not a sentinel. -/
theorem claim10_zero_index_resolves_to_last (tbl : List PyStr) (h : tbl ≠ [])
    (key : Nat) (hk1 : 1 ≤ key) (hk2 : key ≤ tbl.length) :
    decodeField (some tbl) key 0 =
      .ok (tbl.get ⟨key - 1, by omega⟩, tbl.getLast h) ∧
    decodeField (some tbl) 0 0 = .ok (tbl.getLast h, tbl.getLast h) := by
  have hkey : pyListGet tbl ((key : Int) - 1) =
      some (tbl.get ⟨key - 1, by omega⟩) := by
    rw [pyListGet_of_nonneg_lt tbl ((key : Int) - 1) (by omega) (by omega)]
    have hidx : ((key : Int) - 1).toNat = key - 1 := by omega
    simp only [hidx]
  have hzero : pyListGet tbl ((0 : Nat) - 1 : Int) = some (tbl.getLast h) := by
    rw [show ((0 : Nat) - 1 : Int) = -1 by omega]
    exact pyListGet_neg_one tbl h
  constructor
  · unfold decodeField
    dsimp only
    rw [hkey, hzero]
  · unfold decodeField
    dsimp only
    rw [hzero]

/-- Journal with one modern-family event (opcode 0x21) carrying a
single metadata pair resolved as `(field_index, value_index) = (1, 1)`
while no `NEW_STRING` opcode ever ran: wire fields
`M = 16`, `stream_id = 0`, zero offsets/times, `metadata_count = 1`,
metadata entry bytes `[4, 1]` (`meta_key = 4`, shifted `<<= 2` to 16,
representation 0 needing one extra varint, `field_index = 1`,
`value_index = 1`), message `"A"`. -/
def journal7a : List Nat :=
  [0x21, 16] ++ List.replicate 8 0 ++ [0, 0, 0, 0, 1] ++ [4, 1] ++ [65]

/-- As `journal7a`, but preceded by `NEW_STRING "k"` and with the
metadata value index 99, far beyond the 1-entry table. -/
def journal7b : List Nat :=
  [6, 1, 107] ++ [0x21, 16] ++ List.replicate 8 0 ++ [0, 0, 0, 0, 1] ++
    [4, 99] ++ [65]

/-- C7 (counterexample): the claim asserts that an out-of-range
metadata index is non-fatal (sentinel pair, event emitted, `scan()`
true).  On `journal7a` both indices of the pair `(1, 1)` exceed the
(nonexistent, hence length-0) `STRINGS` table, yet `scan()` returns
`false` with `err()` set: `decode_field` reads
`self.fields[Opcode.NEW_STRING]` *outside* its `try`, so the missing
table raises an uncaught `KeyError`. -/
theorem claim7_counterexample :
    (scan initDecoder ⟨journal7a, 0⟩).1 = false ∧
    (scan initDecoder ⟨journal7a, 0⟩).2.1.error =
      some (PyErr.keyError opNEW_STRING) := by
  constructor
  · decide
  · decide

/-- C7 (amended): provided at least one `NEW_STRING` has interned a
string (the table is non-empty), a metadata index *exceeding* the
table length makes `decode_field` return the sentinel tuple
`("exc", "list index out of range")` without raising, and concretely
(`journal7b`) the event is still emitted with the sentinel recorded
and `scan()` returns true.  (An index of 0 instead wraps to the last
entry — C10 — and a missing table is fatal — see the
counterexample.) -/
theorem claim7_amended (tbl : List PyStr) (key value : Nat) (hne : tbl ≠ [])
    (hoor : tbl.length < key ∨ tbl.length < value) :
    decodeField (some tbl) key value =
      .ok (pystr "exc", pystr "list index out of range") ∧
    (scan initDecoder ⟨journal7b, 0⟩).1 = true ∧
    (scan initDecoder ⟨journal7b, 0⟩).2.1.event.metadata_fields =
      [(pystr "exc", MetaVal.scalar (pystr "list index out of range"))] := by
  refine ⟨?_, by decide, by decide⟩
  rcases hoor with hk | hv
  · unfold decodeField
    dsimp only
    rw [pyListGet_none_of_le tbl ((key : Int) - 1) (by omega)]
  · unfold decodeField
    dsimp only
    cases hfk : pyListGet tbl ((key : Int) - 1) with
    | none => rfl
    | some fk =>
      dsimp only
      rw [pyListGet_none_of_le tbl ((value : Int) - 1) (by omega)]

/-- Legacy-family event journal (opcode 0x01) with one metadata entry:
`M = 16`, zero `stream_id`/offsets/times, `metadata_count = 1`,
metadata entry bytes `[18, 5]`, message `"A"`. -/
def journal6 : List Nat :=
  [1, 16] ++ List.replicate 8 0 ++ [0, 0, 0, 0, 1] ++ [18, 5] ++ [65]

/-- C6: the claim (and spec §4.4) says a legacy-family metadata entry
(`opcode ≤ 2`) yields the pair `(meta_key >> 4, value_index)` after
`meta_key <<= 3`.  The code instead crashes: the legacy branch of
`_read_metadata` never assigns `rest`, so appending
`(rest, long_val)` raises `UnboundLocalError`, both at the entry
level (`meta_key = 18`, extra varint 5, expected pair
`((18 << 3) >> 4, 5) = (9, 5)`) and end-to-end, where `scan()` on
`journal6` returns `false` with the error instead of emitting the
event. -/
theorem claim6_legacy_metadata_raises :
    readMetadata 1 [18, 5] 0 = .error (.unboundLocalError "rest") ∧
    (scan initDecoder ⟨journal6, 0⟩).1 = false ∧
    (scan initDecoder ⟨journal6, 0⟩).2.1.error =
      some (PyErr.unboundLocalError "rest") := by
  refine ⟨by rfl, by decide, by decide⟩

/-- Event-only journal whose wire `message_length` is 0: opcode 0x01,
`M = 0`, then the 13 intermediate bytes (8-byte `stream_id` and five
zero varints) and no message bytes. -/
def journal1 : List Nat := [1, 0] ++ List.replicate 8 0 ++ [0, 0, 0, 0, 0]

/-- C1 (counterexample): on `journal1` the event decodes successfully
(`scan()` true) although the wire value `M = 0` (read in 1 byte at
position 1, so the position after the `message_length` varint is 2)
is smaller than the 13 intermediate bytes: the computed message
length is `-13`, `read(-13)` returns `b""`, and the claimed identity
`M = len(message) + bytes_between_message_length_end_and_message_start`
fails (`0 ≠ 0 + 13`, the message starting and the stream ending at
position 15). -/
theorem claim1_counterexample :
    (scan initDecoder ⟨journal1, 0⟩).1 = true ∧
    decodeUvarintFromBytes (speek ⟨journal1, 1⟩ (EVENT_INFO_SIZE : Int)) 0 =
      .ok (0, 1) ∧
    (scan initDecoder ⟨journal1, 0⟩).2.1.event.message = [] ∧
    (scan initDecoder ⟨journal1, 0⟩).2.2.pos = 15 ∧
    ¬ (0 = (scan initDecoder ⟨journal1, 0⟩).2.1.event.message.length + (15 - 2)) := by
  refine ⟨by decide, by rfl, by decide, by decide, by decide⟩

/-- State-update journal activating host index 5 with no host table,
followed by a well-formed empty-message event (`M = 13`). -/
def journal9 : List Nat :=
  [0x18, 5] ++ [1, 13] ++ List.replicate 8 0 ++ [0, 0, 0, 0, 0]

/-- C9 (counterexample): the claim says every accepted event has its
resolved host/source/sourcetype index either 0 or at most the
table's length.  On `journal9`, `scan()` returns true while
`active_host = 5` and the host table was never created (length 0):
`host()` short-circuits to `""` when the table is absent, so the
out-of-range index is never checked. -/
theorem claim9_counterexample :
    (scan initDecoder ⟨journal9, 0⟩).1 = true ∧
    (scan initDecoder ⟨journal9, 0⟩).2.1.active_host = 5 ∧
    (scan initDecoder ⟨journal9, 0⟩).2.1.hosts = none ∧
    ¬ (5 = 0 ∨
        5 ≤ (((scan initDecoder ⟨journal9, 0⟩).2.1.hosts).getD []).length) := by
  refine ⟨by decide, by decide, by decide, by decide⟩



/-! ### Step lemmas for the event decoder -/

theorem decodeShifted_spec (data : List Nat) (o : Int) (v : Nat) (n : Int)
    (h : decodeShiftedVarintFromBytes data o = .ok (v, n)) :
    ∃ u, decodeUvarintFromBytes data o = .ok (u, n) ∧ v = u >>> 1 := by
  unfold decodeShiftedVarintFromBytes at h
  cases hu : decodeUvarintFromBytes data o with
  | error err => rw [hu] at h; cases h
  | ok p =>
    rw [hu] at h
    obtain ⟨u, m⟩ := p
    rw [exc_bind_ok] at h
    dsimp only at h
    cases h
    exact ⟨u, rfl, rfl⟩

theorem peiExtStorage_ok (op : Nat) (peek : List Nat) (e e1 : Event)
    (off off1 : Int) (h : peiExtStorage op peek e off = .ok (e1, off1)) :
    e1.message_length = e.message_length := by
  unfold peiExtStorage at h
  split at h
  · rw [exc_bind_eq_ok] at h
    obtain ⟨p, hp, h⟩ := h
    obtain ⟨v, n⟩ := p
    try dsimp only at h
    cases h
    rfl
  · cases h
    rfl

theorem peiHash_ok (op : Nat) (peek : List Nat) (e e1 : Event)
    (off off1 : Int) (h : peiHash op peek e off = .ok (e1, off1)) :
    e1.message_length = e.message_length := by
  unfold peiHash at h
  split at h
  · cases h
    rfl
  · cases h
    rfl

theorem sskip_ok {s : JStream} {n : Int} {s2 : JStream}
    (h : sskip s n = .ok s2) :
    s2.data = s.data ∧ 0 ≤ n ∧ (s2.pos : Int) = s.pos + n := by
  unfold sskip at h
  split at h
  · cases h
  · split at h
    · cases h
      refine ⟨rfl, by omega, by simp; omega⟩
    · cases h

theorem sread_ok {s : JStream} {n : Int} {bs : List Nat} {s2 : JStream}
    (h : sread s n = .ok (bs, s2)) :
    s2.data = s.data ∧ s.pos ≤ s2.pos ∧ bs = (s.data.drop s.pos).take n.toNat ∧
    (0 ≤ n → (bs.length : Int) = n ∧ (s2.pos : Int) = s.pos + n) := by
  unfold sread at h
  split at h
  · rename_i hn0
    cases h
    have ht : n.toNat = 0 := by omega
    refine ⟨rfl, le_rfl, by rw [ht]; simp, ?_⟩
    intro h0
    have hn : n = 0 := by omega
    subst hn
    simp
  · split at h
    · cases h
      rename_i hpos hle
      refine ⟨rfl, by simp, rfl, ?_⟩
      intro h0
      constructor
      · rw [List.length_take, List.length_drop]
        omega
      · simp
        omega
    · cases h

theorem deMetadataStep_ok (op : Nat) (strs : Option (List PyStr))
    (e : Event) (s : JStream) (e1 : Event) (s1 : JStream)
    (h : deMetadataStep op strs e s = .ok (e1, s1)) :
    s1.data = s.data ∧ s.pos ≤ s1.pos ∧
    e1.message_length = e.message_length ∧
    e1.index_time = e.index_time ∧
    e1.index_time_diff = e.index_time_diff ∧
    e1.time_sub_seconds = e.time_sub_seconds ∧
    e1.event_time = e.event_time ∧
    e1.has_extended_storage = e.has_extended_storage ∧
    e1.extended_storage_len = e.extended_storage_len := by
  unfold deMetadataStep at h
  split at h
  · rw [exc_bind_eq_ok] at h
    obtain ⟨p, hp, h⟩ := h
    obtain ⟨n, mf⟩ := p
    try dsimp only at h
    rw [exc_bind_eq_ok] at h
    obtain ⟨sSk, hSk, h⟩ := h
    try dsimp only at h
    cases h
    obtain ⟨hd, h0, hpos⟩ := sskip_ok hSk
    exact ⟨hd, by omega, rfl, rfl, rfl, rfl, rfl, rfl, rfl⟩
  · cases h
    exact ⟨rfl, le_rfl, rfl, rfl, rfl, rfl, rfl, rfl, rfl⟩

theorem deExtStorageStep_ok (e : Event) (s : JStream) (s1 : JStream)
    (h : deExtStorageStep e s = .ok s1) :
    s1.data = s.data ∧ s.pos ≤ s1.pos := by
  unfold deExtStorageStep at h
  split at h
  · rw [exc_bind_eq_ok] at h
    obtain ⟨p, hp, h⟩ := h
    obtain ⟨bs, sR⟩ := p
    try dsimp only at h
    cases h
    obtain ⟨hd, hmono, -, -⟩ := sread_ok hp
    exact ⟨hd, hmono⟩
  · cases h
    exact ⟨rfl, le_rfl⟩

/-! ### Facts about a successful event-header parse -/

theorem parseEventInfo_ok_facts (op : Nat) (peek : List Nat) (pos : Nat)
    (bI bE : Int) (e0 e : Event) (off : Int)
    (h : parseEventInfo op peek pos bI bE e0 = .ok (e, off)) :
    e.index_time = bI + (e.index_time_diff : Int) ∧
    e.event_time = bE * 1000 + (e.time_sub_seconds : Int) ∧
    (∃ o n, decodeUvarintFromBytes peek o = .ok (e.index_time_diff, n)) ∧
    (∃ o n, decodeShiftedVarintFromBytes peek o = .ok (e.time_sub_seconds, n)) ∧
    (∀ M nM, decodeUvarintFromBytes peek 0 = .ok (M, nM) →
      e.message_length = ((M : Int) + pos + (0 + nM))) := by
  unfold parseEventInfo at h
  rw [exc_bind_eq_ok] at h
  obtain ⟨p1, h1, h⟩ := h
  obtain ⟨u, n⟩ := p1
  try dsimp only at h
  rw [exc_bind_eq_ok] at h
  obtain ⟨p2, h2, h⟩ := h
  obtain ⟨e1, off1⟩ := p2
  try dsimp only at h
  rw [exc_bind_eq_ok] at h
  obtain ⟨p3, h3, h⟩ := h
  obtain ⟨e2, off2⟩ := p3
  try dsimp only at h
  rw [exc_bind_eq_ok] at h
  obtain ⟨sid, hsid, h⟩ := h
  try dsimp only at h
  rw [exc_bind_eq_ok] at h
  obtain ⟨p5, h5, h⟩ := h
  obtain ⟨v5, n5⟩ := p5
  try dsimp only at h
  rw [exc_bind_eq_ok] at h
  obtain ⟨p6, h6, h⟩ := h
  obtain ⟨v6, n6⟩ := p6
  try dsimp only at h
  rw [exc_bind_eq_ok] at h
  obtain ⟨p7, h7, h⟩ := h
  obtain ⟨v7, n7⟩ := p7
  try dsimp only at h
  rw [exc_bind_eq_ok] at h
  obtain ⟨p8, h8, h⟩ := h
  obtain ⟨v8, n8⟩ := p8
  try dsimp only at h
  rw [exc_bind_eq_ok] at h
  obtain ⟨p9, h9, h⟩ := h
  obtain ⟨v9, n9⟩ := p9
  try dsimp only at h
  cases h
  have hml2 : e2.message_length = (u : Int) + pos + (0 + n) := by
    rw [peiHash_ok op peek e1 e2 off1 off2 h3]
    rw [peiExtStorage_ok op peek _ e1 (0 + n) off1 h2]
  refine ⟨rfl, rfl, ⟨_, _, h7⟩, ⟨_, _, h8⟩, ?_⟩
  intro M nM hM
  have huM := h1.symm.trans hM
  simp only [Except.ok.injEq, Prod.mk.injEq] at huM
  obtain ⟨hu, hn⟩ := huM
  subst hu
  subst hn
  exact hml2

/-! ### Facts about a successful `_decode_event` -/

theorem decodeEvent_ok_facts (d : Decoder) (s : JStream) (d1 : Decoder)
    (s1 : JStream) (h : decodeEvent d s = .ok (d1, s1)) :
    d1.hosts = d.hosts ∧ d1.sources = d.sources ∧
    d1.sourcetypes = d.sourcetypes ∧ d1.strings = d.strings ∧
    d1.opcode = d.opcode ∧ d1.active_host = d.active_host ∧
    d1.active_source = d.active_source ∧
    d1.active_source_type = d.active_source_type ∧
    s1.data = s.data ∧ s.pos ≤ s1.pos ∧
    (∃ hv, hostFn d = .ok hv ∧ d1.event.host = hv) ∧
    (∃ sv, sourceFn d = .ok sv ∧ d1.event.source = sv) ∧
    (∃ tv, sourceTypeFn d = .ok tv ∧ d1.event.sourcetype = tv) ∧
    d1.event.index_time = d.base_index_time + (d1.event.index_time_diff : Int) ∧
    d1.event.event_time =
      d.base_event_time * 1000 + (d1.event.time_sub_seconds : Int) ∧
    (∃ o n, decodeUvarintFromBytes (speek s (EVENT_INFO_SIZE : Int)) o =
      .ok (d1.event.index_time_diff, n)) ∧
    (∃ o n, decodeShiftedVarintFromBytes (speek s (EVENT_INFO_SIZE : Int)) o =
      .ok (d1.event.time_sub_seconds, n)) ∧
    (∃ posM : Int,
      (0 ≤ d1.event.message_length →
        ((d1.event.message.length : Int) = d1.event.message_length ∧
          (s1.pos : Int) = posM + d1.event.message_length)) ∧
      (∀ M nM,
        decodeUvarintFromBytes (speek s (EVENT_INFO_SIZE : Int)) 0 =
          .ok (M, nM) →
        d1.event.message_length = ((M : Int) + s.pos + (0 + nM)) - posM)) := by
  unfold decodeEvent at h
  rw [exc_bind_eq_ok] at h
  obtain ⟨pP, hP, h⟩ := h
  obtain ⟨eMid, offP⟩ := pP
  try dsimp only at h
  rw [exc_bind_eq_ok] at h
  obtain ⟨sSk, hSk, h⟩ := h
  try dsimp only at h
  rw [exc_bind_eq_ok] at h
  obtain ⟨pM, hMd, h⟩ := h
  obtain ⟨eM, sM⟩ := pM
  try dsimp only at h
  rw [exc_bind_eq_ok] at h
  obtain ⟨sE, hEx, h⟩ := h
  try dsimp only at h
  rw [exc_bind_eq_ok] at h
  obtain ⟨pR, hR, h⟩ := h
  obtain ⟨msg, sR⟩ := pR
  try dsimp only at h
  rw [exc_bind_eq_ok] at h
  obtain ⟨srcv, hsrc, h⟩ := h
  try dsimp only at h
  rw [exc_bind_eq_ok] at h
  obtain ⟨stv, hst, h⟩ := h
  try dsimp only at h
  rw [exc_bind_eq_ok] at h
  obtain ⟨hostv, hhv, h⟩ := h
  try dsimp only at h
  cases h
  obtain ⟨hPa, hPb, hPc, hPd, hPe⟩ :=
    parseEventInfo_ok_facts d.opcode (speek s (EVENT_INFO_SIZE : Int)) s.pos
      d.base_index_time d.base_event_time d.event eMid offP hP
  obtain ⟨hSkData, hSk0, hSkPos⟩ := sskip_ok hSk
  obtain ⟨hMdData, hMdPos, hMdMl, hMdIt, hMdItd, hMdTss, hMdEt, -, -⟩ :=
    deMetadataStep_ok d.opcode d.strings eMid sSk eM sM hMd
  obtain ⟨hExData, hExPos⟩ := deExtStorageStep_ok eM sM sE hEx
  obtain ⟨hRData, hRPos, hRbs, hRlen⟩ := sread_ok hR
  refine ⟨rfl, rfl, rfl, rfl, rfl, rfl, rfl, rfl, ?_, ?_, ⟨hostv, hhv, rfl⟩,
    ⟨srcv, hsrc, rfl⟩, ⟨stv, hst, rfl⟩, ?_, ?_, ?_, ?_, ?_⟩
  · rw [hRData, hExData, hMdData, hSkData]
  · have : s.pos ≤ sSk.pos := by omega
    omega
  · show eM.index_time = _ + (eM.index_time_diff : Int)
    rw [hMdIt, hMdItd, hPa]
  · show eM.event_time = _ + (eM.time_sub_seconds : Int)
    rw [hMdEt, hMdTss, hPb]
  · show ∃ o n, _ = Except.ok (eM.index_time_diff, n)
    rw [hMdItd]
    exact hPc
  · show ∃ o n, _ = Except.ok (eM.time_sub_seconds, n)
    rw [hMdTss]
    exact hPd
  · refine ⟨(sE.pos : Int), ?_, ?_⟩
    · intro h0
      have := hRlen h0
      refine ⟨?_, ?_⟩
      · simp only [this.1]
      · rw [this.2]
        try ring
    · intro M nM hM
      show eM.message_length - (sE.pos : Int) = _
      rw [hMdMl, hPe M nM hM]


/-! ### Handler facts and dispatch facts -/

theorem readUvarintGo_ok (fuel : Nat) :
    ∀ (s : JStream) (r sh v : Nat) (s2 : JStream),
      readUvarintGo fuel s r sh = .ok (v, s2) →
      s2.data = s.data ∧ s.pos ≤ s2.pos := by
  induction fuel with
  | zero => intro s r sh v s2 h; cases h
  | succ fuel ih =>
    intro s r sh v s2 h
    unfold readUvarintGo at h
    split at h
    · dsimp only at h
      split at h
      · cases h
        exact ⟨rfl, Nat.le_succ s.pos⟩
      · obtain ⟨hd, hp⟩ := ih _ _ _ _ _ h
        have hd2 : s2.data = s.data := hd
        have hp2 : s.pos + 1 ≤ s2.pos := hp
        exact ⟨hd2, by omega⟩
    · cases h

theorem readUvarintS_ok {s : JStream} {v : Nat} {s2 : JStream}
    (h : readUvarintS s = .ok (v, s2)) :
    s2.data = s.data ∧ s.pos ≤ s2.pos :=
  readUvarintGo_ok _ s 0 0 v s2 h

theorem readStringField_ok {s : JStream} {v : PyStr} {s2 : JStream}
    (h : readStringField s = .ok (v, s2)) :
    s2.data = s.data ∧ s.pos ≤ s2.pos := by
  unfold readStringField at h
  rw [exc_bind_eq_ok] at h
  obtain ⟨p1, h1, h⟩ := h
  obtain ⟨len, sU⟩ := p1
  try dsimp only at h
  rw [exc_bind_eq_ok] at h
  obtain ⟨p2, h2, h⟩ := h
  obtain ⟨bs, sR⟩ := p2
  try dsimp only at h
  cases h
  obtain ⟨hd1, hp1⟩ := readUvarintS_ok h1
  obtain ⟨hd2, hp2, -, -⟩ := sread_ok h2
  exact ⟨by rw [hd2, hd1], by omega⟩

theorem decodeHeader_ok_facts {d : Decoder} {s : JStream} {d2 : Decoder}
    {s2 : JStream} (h : decodeHeader d s = .ok (d2, s2)) :
    d2.opcode = d.opcode ∧ s2.data = s.data ∧ s.pos ≤ s2.pos ∧
    d2.event = d.event ∧
    ∃ bytes, sread s 6 = .ok (bytes, s2) ∧
      unpackInt32LE (pySlice bytes 2 6) = .ok d2.base_index_time := by
  unfold decodeHeader at h
  rw [exc_bind_eq_ok] at h
  obtain ⟨p1, h1, h⟩ := h
  obtain ⟨bytes, sR⟩ := p1
  try dsimp only at h
  rw [exc_bind_eq_ok] at h
  obtain ⟨base, hbase, h⟩ := h
  try dsimp only at h
  cases h
  obtain ⟨hd, hp, -, -⟩ := sread_ok h1
  exact ⟨rfl, hd, hp, rfl, bytes, h1, hbase⟩

theorem decodeSplunkPrivate_ok_facts {d : Decoder} {s : JStream} {d2 : Decoder}
    {s2 : JStream} (h : decodeSplunkPrivate d s = .ok (d2, s2)) :
    d2.opcode = d.opcode ∧ s2.data = s.data ∧ s.pos ≤ s2.pos := by
  unfold decodeSplunkPrivate at h
  rw [exc_bind_eq_ok] at h
  obtain ⟨p1, h1, h⟩ := h
  obtain ⟨len, sU⟩ := p1
  try dsimp only at h
  rw [exc_bind_eq_ok] at h
  obtain ⟨sS, hS, h⟩ := h
  try dsimp only at h
  cases h
  obtain ⟨hd1, hp1⟩ := readUvarintS_ok h1
  obtain ⟨hd2, h0, hp2⟩ := sskip_ok hS
  exact ⟨rfl, by rw [hd2, hd1], by omega⟩

theorem decodeHost_ok_facts {d : Decoder} {s : JStream} {d2 : Decoder}
    {s2 : JStream} (h : decodeHost d s = .ok (d2, s2)) :
    d2.opcode = d.opcode ∧ s2.data = s.data ∧ s.pos ≤ s2.pos := by
  unfold decodeHost at h
  rw [exc_bind_eq_ok] at h
  obtain ⟨p1, h1, h⟩ := h
  obtain ⟨v, sR⟩ := p1
  try dsimp only at h
  cases h
  obtain ⟨hd, hp⟩ := readStringField_ok h1
  exact ⟨rfl, hd, hp⟩

theorem decodeSource_ok_facts {d : Decoder} {s : JStream} {d2 : Decoder}
    {s2 : JStream} (h : decodeSource d s = .ok (d2, s2)) :
    d2.opcode = d.opcode ∧ s2.data = s.data ∧ s.pos ≤ s2.pos := by
  unfold decodeSource at h
  rw [exc_bind_eq_ok] at h
  obtain ⟨p1, h1, h⟩ := h
  obtain ⟨v, sR⟩ := p1
  try dsimp only at h
  cases h
  obtain ⟨hd, hp⟩ := readStringField_ok h1
  exact ⟨rfl, hd, hp⟩

theorem decodeSourceType_ok_facts {d : Decoder} {s : JStream} {d2 : Decoder}
    {s2 : JStream} (h : decodeSourceType d s = .ok (d2, s2)) :
    d2.opcode = d.opcode ∧ s2.data = s.data ∧ s.pos ≤ s2.pos := by
  unfold decodeSourceType at h
  rw [exc_bind_eq_ok] at h
  obtain ⟨p1, h1, h⟩ := h
  obtain ⟨v, sR⟩ := p1
  try dsimp only at h
  cases h
  obtain ⟨hd, hp⟩ := readStringField_ok h1
  exact ⟨rfl, hd, hp⟩

theorem decodeString_ok_facts {d : Decoder} {s : JStream} {d2 : Decoder}
    {s2 : JStream} (h : decodeString d s = .ok (d2, s2)) :
    d2.opcode = d.opcode ∧ s2.data = s.data ∧ s.pos ≤ s2.pos := by
  unfold decodeString at h
  rw [exc_bind_eq_ok] at h
  obtain ⟨p1, h1, h⟩ := h
  obtain ⟨v, sR⟩ := p1
  try dsimp only at h
  cases h
  obtain ⟨hd, hp⟩ := readStringField_ok h1
  exact ⟨rfl, hd, hp⟩

theorem dnsHost_ok_facts {d : Decoder} {s : JStream} {d2 : Decoder}
    {s2 : JStream} (h : dnsHost d s = .ok (d2, s2)) :
    d2.opcode = d.opcode ∧ s2.data = s.data ∧ s.pos ≤ s2.pos := by
  unfold dnsHost at h
  split at h
  · rw [exc_bind_eq_ok] at h
    obtain ⟨p1, h1, h⟩ := h
    obtain ⟨v, sR⟩ := p1
    try dsimp only at h
    cases h
    obtain ⟨hd, hp⟩ := readUvarintS_ok h1
    exact ⟨rfl, hd, hp⟩
  · cases h
    exact ⟨rfl, rfl, le_rfl⟩

theorem dnsSource_ok_facts {d : Decoder} {s : JStream} {d2 : Decoder}
    {s2 : JStream} (h : dnsSource d s = .ok (d2, s2)) :
    d2.opcode = d.opcode ∧ s2.data = s.data ∧ s.pos ≤ s2.pos := by
  unfold dnsSource at h
  split at h
  · rw [exc_bind_eq_ok] at h
    obtain ⟨p1, h1, h⟩ := h
    obtain ⟨v, sR⟩ := p1
    try dsimp only at h
    cases h
    obtain ⟨hd, hp⟩ := readUvarintS_ok h1
    exact ⟨rfl, hd, hp⟩
  · cases h
    exact ⟨rfl, rfl, le_rfl⟩

theorem dnsSourceType_ok_facts {d : Decoder} {s : JStream} {d2 : Decoder}
    {s2 : JStream} (h : dnsSourceType d s = .ok (d2, s2)) :
    d2.opcode = d.opcode ∧ s2.data = s.data ∧ s.pos ≤ s2.pos := by
  unfold dnsSourceType at h
  split at h
  · rw [exc_bind_eq_ok] at h
    obtain ⟨p1, h1, h⟩ := h
    obtain ⟨v, sR⟩ := p1
    try dsimp only at h
    cases h
    obtain ⟨hd, hp⟩ := readUvarintS_ok h1
    exact ⟨rfl, hd, hp⟩
  · cases h
    exact ⟨rfl, rfl, le_rfl⟩

theorem dnsBaseTime_ok_facts {d : Decoder} {s : JStream} {d2 : Decoder}
    {s2 : JStream} (h : dnsBaseTime d s = .ok (d2, s2)) :
    d2.opcode = d.opcode ∧ s2.data = s.data ∧ s.pos ≤ s2.pos := by
  unfold dnsBaseTime at h
  split at h
  · rw [exc_bind_eq_ok] at h
    obtain ⟨p1, h1, h⟩ := h
    obtain ⟨bytes, sR⟩ := p1
    try dsimp only at h
    rw [exc_bind_eq_ok] at h
    obtain ⟨v, hv, h⟩ := h
    try dsimp only at h
    cases h
    obtain ⟨hd, hp, -, -⟩ := sread_ok h1
    exact ⟨rfl, hd, hp⟩
  · cases h
    exact ⟨rfl, rfl, le_rfl⟩

theorem decodeNewState_ok_facts {d : Decoder} {s : JStream} {d2 : Decoder}
    {s2 : JStream} (h : decodeNewState d s = .ok (d2, s2)) :
    d2.opcode = d.opcode ∧ s2.data = s.data ∧ s.pos ≤ s2.pos := by
  unfold decodeNewState at h
  rw [exc_bind_eq_ok] at h
  obtain ⟨p1, h1, h⟩ := h
  obtain ⟨dA, sA⟩ := p1
  try dsimp only at h
  rw [exc_bind_eq_ok] at h
  obtain ⟨p2, h2, h⟩ := h
  obtain ⟨dB, sB⟩ := p2
  try dsimp only at h
  rw [exc_bind_eq_ok] at h
  obtain ⟨p3, h3, h⟩ := h
  obtain ⟨dC, sC⟩ := p3
  try dsimp only at h
  obtain ⟨hoA, hdA, hpA⟩ := dnsHost_ok_facts h1
  obtain ⟨hoB, hdB, hpB⟩ := dnsSource_ok_facts h2
  obtain ⟨hoC, hdC, hpC⟩ := dnsSourceType_ok_facts h3
  obtain ⟨hoD, hdD, hpD⟩ := dnsBaseTime_ok_facts h
  refine ⟨by rw [hoD, hoC, hoB, hoA], by rw [hdD, hdC, hdB, hdA], by omega⟩

theorem decodeEvent_opcode {d : Decoder} {s : JStream} {d2 : Decoder}
    {s2 : JStream} (h : decodeEvent d s = .ok (d2, s2)) :
    d2.opcode = d.opcode ∧ s2.data = s.data ∧ s.pos ≤ s2.pos := by
  obtain ⟨-, -, -, -, ho, -, -, -, hd, hp, -⟩ := decodeEvent_ok_facts d s d2 s2 h
  exact ⟨ho, hd, hp⟩

/-- Successful dispatch preserves the opcode and the underlying byte
list, and never moves the position backwards. -/
theorem decodeNext_ok_facts {d : Decoder} {s : JStream} {d2 : Decoder}
    {s2 : JStream} (h : decodeNext d s = .ok (d2, s2)) :
    d2.opcode = d.opcode ∧ s2.data = s.data ∧ s.pos ≤ s2.pos := by
  unfold decodeNext at h
  split_ifs at h
  · obtain ⟨ho, hd, hp, -, -⟩ := decodeHeader_ok_facts h
    exact ⟨ho, hd, hp⟩
  · exact decodeSplunkPrivate_ok_facts h
  · exact decodeHost_ok_facts h
  · exact decodeSource_ok_facts h
  · exact decodeSourceType_ok_facts h
  · exact decodeString_ok_facts h
  · cases h; exact ⟨rfl, rfl, le_rfl⟩
  · exact decodeNewState_ok_facts h
  · exact decodeEvent_opcode h

/-- When the stored opcode is an event opcode, `_decode_next` runs
`_decode_event`. -/
theorem decodeNext_event {d : Decoder} {s : JStream}
    (hev : isEventOpcode d.opcode = true) :
    decodeNext d s = decodeEvent d s := by
  unfold decodeNext
  unfold isEventOpcode at hev
  unfold opOLDSTYLE_EVENT opOLDSTYLE_EVENT_WITH_HASH at hev
  simp only [Bool.or_eq_true, beq_iff_eq, Bool.and_eq_true, decide_eq_true_eq] at hev
  have h1 : ¬ d.opcode = opHEADER := by unfold opHEADER; omega
  have h2 : ¬ d.opcode = opSPLUNK_PRIVATE := by unfold opSPLUNK_PRIVATE; omega
  have h3 : ¬ d.opcode = opNEW_HOST := by unfold opNEW_HOST; omega
  have h4 : ¬ d.opcode = opNEW_SOURCE := by unfold opNEW_SOURCE; omega
  have h5 : ¬ d.opcode = opNEW_SOURCE_TYPE := by unfold opNEW_SOURCE_TYPE; omega
  have h6 : ¬ d.opcode = opNEW_STRING := by unfold opNEW_STRING; omega
  have h7 : ¬ d.opcode = opNOP := by unfold opNOP; omega
  have h8 : ¬ (17 ≤ d.opcode ∧ d.opcode ≤ 31) := by omega
  have h9 : isEventOpcode d.opcode = true := by
    unfold isEventOpcode opOLDSTYLE_EVENT opOLDSTYLE_EVENT_WITH_HASH
    simp only [Bool.or_eq_true, beq_iff_eq, Bool.and_eq_true, decide_eq_true_eq]
    omega
  rw [if_neg h1, if_neg h2, if_neg h3, if_neg h4, if_neg h5, if_neg h6,
    if_neg h7, if_neg h8, if_pos h9]


/-! ### The scan-loop outcome relation (C4) -/

theorem dispatchSet_opcode (d : Decoder) (b : Nat) :
    (dispatchSet d b).opcode = b := by
  unfold dispatchSet
  split <;> rfl

theorem readByte_ok_inv {s : JStream} {b : Nat} {s1 : JStream}
    (h : readByte s = .ok (b, s1)) :
    s.pos < s.data.length ∧ s1.data = s.data ∧ s1.pos = s.pos + 1 := by
  unfold readByte at h
  split at h
  · cases h
    rename_i hlt
    exact ⟨hlt, rfl, rfl⟩
  · cases h

theorem readByte_error_inv {s : JStream} {e : PyErr}
    (h : readByte s = .error e) : s.data.length ≤ s.pos := by
  unfold readByte at h
  split at h
  · cases h
  · rename_i hge
    omega

/-- Outcome of one `scan()` call, as the spec's scan-loop contract
describes it: reading the next opcode at EOF terminates cleanly
(`false`, `err()` cleared); a decode error after a consumed opcode
byte terminates with `false` and `err()` set to that error;
completing an event-family opcode returns `true`; any other opcode is
consumed silently and the loop continues. -/
inductive ScanOut : Decoder → JStream → Bool × Decoder × JStream → Prop where
  | cleanEof (d : Decoder) (s : JStream)
      (heof : s.data.length ≤ s.pos) :
      ScanOut d s (false, { d with error := none }, s)
  | decodeErr (d : Decoder) (s : JStream) (b : Nat) (s1 : JStream) (e : PyErr)
      (hrb : readByte s = .ok (b, s1))
      (herr : decodeNext (dispatchSet d b) s1 = .error e) :
      ScanOut d s (false, { dispatchSet d b with error := some e }, s1)
  | eventDone (d : Decoder) (s : JStream) (b : Nat) (s1 : JStream)
      (d2 : Decoder) (s2 : JStream)
      (hrb : readByte s = .ok (b, s1))
      (hdec : decodeNext (dispatchSet d b) s1 = .ok (d2, s2))
      (hev : isEventOpcode d2.opcode = true) :
      ScanOut d s (true, d2, s2)
  | skipStep (d : Decoder) (s : JStream) (b : Nat) (s1 : JStream)
      (d2 : Decoder) (s2 : JStream) (out : Bool × Decoder × JStream)
      (hrb : readByte s = .ok (b, s1))
      (hdec : decodeNext (dispatchSet d b) s1 = .ok (d2, s2))
      (hev : isEventOpcode d2.opcode = false)
      (htail : ScanOut d2 s2 out) :
      ScanOut d s out

theorem scanFuel_sound (fuel : Nat) :
    ∀ (d : Decoder) (s : JStream), s.data.length - s.pos < fuel →
      ScanOut d s (scanFuel fuel d s) := by
  induction fuel with
  | zero => intro d s hf; omega
  | succ fuel ih =>
    intro d s hf
    show ScanOut d s
      (match readByte s with
      | .error _ => (false, { d with error := none }, s)
      | .ok (b, s1) =>
        let d1 := dispatchSet d b
        match decodeNext d1 s1 with
        | .error e => (false, { d1 with error := some e }, s1)
        | .ok (d2, s2) =>
          if isEventOpcode d2.opcode then (true, d2, s2)
          else scanFuel fuel d2 s2)
    cases hrb : readByte s with
    | error e =>
      exact ScanOut.cleanEof d s (readByte_error_inv hrb)
    | ok p =>
      obtain ⟨b, s1⟩ := p
      obtain ⟨hlt, hs1d, hs1p⟩ := readByte_ok_inv hrb
      dsimp only
      cases hdn : decodeNext (dispatchSet d b) s1 with
      | error e =>
        exact ScanOut.decodeErr d s b s1 e hrb hdn
      | ok q =>
        obtain ⟨d2, s2⟩ := q
        dsimp only
        by_cases hev : isEventOpcode d2.opcode
        · rw [if_pos hev]
          exact ScanOut.eventDone d s b s1 d2 s2 hrb hdn hev
        · rw [if_neg hev]
          have hev2 : isEventOpcode d2.opcode = false := by
            cases hb : isEventOpcode d2.opcode
            · rfl
            · exact absurd hb hev
          refine ScanOut.skipStep d s b s1 d2 s2 _ hrb hdn hev2 (ih d2 s2 ?_)
          obtain ⟨-, hd2, hp2⟩ := decodeNext_ok_facts hdn
          rw [hd2, hs1d]
          omega

theorem scanFuel_true (fuel : Nat) :
    ∀ (d : Decoder) (s : JStream) (d1 : Decoder) (s1 : JStream),
      scanFuel fuel d s = (true, d1, s1) →
      ∃ dp sp, isEventOpcode dp.opcode = true ∧
        decodeEvent dp sp = .ok (d1, s1) := by
  induction fuel with
  | zero =>
    intro d s d1 s1 h
    simp only [scanFuel, Prod.mk.injEq] at h
    exact absurd h.1 Bool.false_ne_true
  | succ fuel ih =>
    intro d s d1 s1 h
    rw [show scanFuel (fuel + 1) d s =
        (match readByte s with
        | .error _ => (false, { d with error := none }, s)
        | .ok (b, s1) =>
          let d1 := dispatchSet d b
          match decodeNext d1 s1 with
          | .error e => (false, { d1 with error := some e }, s1)
          | .ok (d2, s2) =>
            if isEventOpcode d2.opcode then (true, d2, s2)
            else scanFuel fuel d2 s2) from rfl] at h
    cases hrb : readByte s with
    | error e =>
      rw [hrb] at h
      simp only [Prod.mk.injEq] at h
      exact absurd h.1 Bool.false_ne_true
    | ok p =>
      obtain ⟨b, sB⟩ := p
      rw [hrb] at h
      dsimp only at h
      cases hdn : decodeNext (dispatchSet d b) sB with
      | error e =>
        rw [hdn] at h
        dsimp only at h
        simp only [Prod.mk.injEq] at h
        exact absurd h.1 Bool.false_ne_true
      | ok q =>
        obtain ⟨d2, s2⟩ := q
        rw [hdn] at h
        dsimp only at h
        by_cases hev : isEventOpcode d2.opcode
        · rw [if_pos hev] at h
          simp only [Prod.mk.injEq, true_and] at h
          obtain ⟨hd1, hs1⟩ := h
          subst hd1
          subst hs1
          have hevb : isEventOpcode (dispatchSet d b).opcode = true := by
            obtain ⟨ho, -, -⟩ := decodeNext_ok_facts hdn
            rw [dispatchSet_opcode]
            rw [ho, dispatchSet_opcode] at hev
            exact hev
          refine ⟨dispatchSet d b, sB, hevb, ?_⟩
          rw [← decodeNext_event hevb]
          exact hdn
        · rw [if_neg hev] at h
          exact ih d2 s2 d1 s1 h


/-! ### Resolution bounds (C9) -/

theorem pyListGet_some_lt {tbl : List PyStr} {i : Int} {v : PyStr}
    (hg : pyListGet tbl i = some v) (h0 : 0 ≤ i) : i < (tbl.length : Int) := by
  unfold pyListGet at hg
  have hneg : ¬ i < 0 := by omega
  simp only [hneg, if_false] at hg
  split at hg
  · rename_i hcond
    exact hcond.2
  · cases hg

theorem hostFn_ok_bound {d : Decoder} {v : PyStr} (h : hostFn d = .ok v) :
    d.active_host = 0 ∨ d.hosts = none ∨
      d.active_host ≤ (d.hosts.getD []).length := by
  unfold hostFn at h
  cases hh : d.hosts with
  | none => exact Or.inr (Or.inl rfl)
  | some tbl =>
    rw [hh] at h
    dsimp only at h
    by_cases ha : d.active_host > 0
    · rw [if_pos ha] at h
      cases hg : pyListGet tbl ((d.active_host : Int) - 1) with
      | none => rw [hg] at h; cases h
      | some v2 =>
        have hlt := pyListGet_some_lt hg (by omega)
        refine Or.inr (Or.inr ?_)
        simp only [Option.getD_some]
        omega
    · rw [if_neg ha] at h
      exact Or.inl (by omega)

theorem sourceFn_ok_bound {d : Decoder} {v : PyStr} (h : sourceFn d = .ok v) :
    d.active_source = 0 ∨ d.sources = none ∨
      d.active_source ≤ (d.sources.getD []).length := by
  unfold sourceFn at h
  cases hh : d.sources with
  | none => exact Or.inr (Or.inl rfl)
  | some tbl =>
    rw [hh] at h
    dsimp only at h
    by_cases ha : d.active_source > 0
    · rw [if_pos ha] at h
      cases hg : pyListGet tbl ((d.active_source : Int) - 1) with
      | none => rw [hg] at h; cases h
      | some v2 =>
        have hlt := pyListGet_some_lt hg (by omega)
        refine Or.inr (Or.inr ?_)
        simp only [Option.getD_some]
        omega
    · rw [if_neg ha] at h
      exact Or.inl (by omega)

theorem sourceTypeFn_ok_bound {d : Decoder} {v : PyStr}
    (h : sourceTypeFn d = .ok v) :
    d.active_source_type = 0 ∨ d.sourcetypes = none ∨
      d.active_source_type ≤ (d.sourcetypes.getD []).length := by
  unfold sourceTypeFn at h
  cases hh : d.sourcetypes with
  | none => exact Or.inr (Or.inl rfl)
  | some tbl =>
    rw [hh] at h
    dsimp only at h
    by_cases ha : d.active_source_type > 0
    · rw [if_pos ha] at h
      cases hg : pyListGet tbl ((d.active_source_type : Int) - 1) with
      | none => rw [hg] at h; cases h
      | some v2 =>
        have hlt := pyListGet_some_lt hg (by omega)
        refine Or.inr (Or.inr ?_)
        simp only [Option.getD_some]
        omega
    · rw [if_neg ha] at h
      exact Or.inl (by omega)

theorem pySlice_nonneg (data : List Nat) (lo hi : Int) (h0 : 0 ≤ lo)
    (hlh : lo ≤ hi) (hhl : hi ≤ (data.length : Int)) :
    pySlice data lo hi = (data.drop lo.toNat).take (hi.toNat - lo.toNat) := by
  unfold pySlice
  have hnl : ¬ lo < 0 := by omega
  have hnh : ¬ hi < 0 := by omega
  simp only [hnl, hnh, if_false]
  rw [min_eq_left (show lo ≤ (data.length : Int) by omega), min_eq_left hhl]


/-! ### Claim theorems C1-C4, C9 -/

/-- C1 (amended): for every event record whose `message_length` varint
decodes to `(M, nM)` with `nM ≥ 0` and whose computed message length
`P − current_position` is nonnegative, a successful `_decode_event`
reads a message with
`M = len(message) + (message_start − position_after_message_length)`,
i.e. the wire value equals the message length plus the bytes between
the end of the `message_length` field and the start of the message.
(When `M` is smaller than the intermediate bytes the async `read`
returns `b""` and the identity fails — see the counterexample.) -/
theorem claim1_amended (d : Decoder) (s : JStream) (M : Nat) (nM : Int)
    (hM : decodeUvarintFromBytes (speek s (EVENT_INFO_SIZE : Int)) 0 =
      .ok (M, nM))
    (hok : isOkE (decodeEvent d s) = true)
    (hnn : 0 ≤ (eventAfter d s).message_length) :
    (M : Int) = (eventAfter d s).message.length +
      (((posAfterEvent d s : Int) - (eventAfter d s).message.length) -
        ((s.pos : Int) + nM)) := by
  cases hr : decodeEvent d s with
  | error e =>
    rw [hr] at hok
    cases hok
  | ok r =>
    obtain ⟨d1, s1⟩ := r
    have hE : eventAfter d s = d1.event := by
      unfold eventAfter
      rw [hr]
    have hP : posAfterEvent d s = s1.pos := by
      unfold posAfterEvent
      rw [hr]
    rw [hE] at hnn
    rw [hE, hP]
    obtain ⟨-, -, -, -, -, -, -, -, -, -, -, -, -, -, -, -, -,
      posM, hc1, hc2⟩ := decodeEvent_ok_facts d s d1 s1 hr
    have h2 := hc2 M nM hM
    obtain ⟨hlen, hpos⟩ := hc1 hnn
    omega

/-- C2: `index_time_diff` is decoded as an unsigned varint out of the
peeked event window, the emitted event satisfies
`index_time = base_index_time + index_time_diff`, `base_index_time`
defaults to 0 on a fresh decoder, and the HEADER opcode stores the
signed 32-bit little-endian value found two bytes after the opcode
as `base_index_time`. -/
theorem claim2_index_time (d dh : Decoder) (s sh : JStream)
    (hhdr : isOkE (decodeHeader dh sh) = true)
    (hevt : isOkE (decodeEvent d s) = true) :
    initDecoder.base_index_time = 0 ∧
    baseAfterHeader dh sh =
      toSigned32 (leCombine ((sh.data.drop (sh.pos + 2)).take 4)) ∧
    (eventAfter d s).index_time =
      d.base_index_time + ((eventAfter d s).index_time_diff : Int) ∧
    (∃ o n, decodeUvarintFromBytes (speek s (EVENT_INFO_SIZE : Int)) o =
      .ok ((eventAfter d s).index_time_diff, n)) := by
  refine ⟨rfl, ?_, ?_⟩
  · cases hr : decodeHeader dh sh with
    | error e =>
      rw [hr] at hhdr
      cases hhdr
    | ok r =>
      obtain ⟨d2, s2⟩ := r
      have hB : baseAfterHeader dh sh = d2.base_index_time := by
        unfold baseAfterHeader
        rw [hr]
      rw [hB]
      obtain ⟨-, -, -, -, bytes, hrd, hunp⟩ := decodeHeader_ok_facts hr
      obtain ⟨-, -, hbytes, hlen6⟩ := sread_ok hrd
      have hbl : (bytes.length : Int) = 6 := (hlen6 (by omega)).1
      rw [pySlice_nonneg bytes 2 6 (by omega) (by omega) (by omega)] at hunp
      have hslice : (bytes.drop (2 : Int).toNat).take
          ((6 : Int).toNat - (2 : Int).toNat) =
          (sh.data.drop (sh.pos + 2)).take 4 := by
        rw [hbytes]
        rw [show ((2 : Int).toNat) = 2 from rfl, show ((6 : Int).toNat) = 6 from rfl]
        rw [show ((6 : Nat) - 2) = 4 from rfl]
        rw [show (6 : Nat) = 2 + 4 from rfl]
        rw [← List.take_drop 2 4 (sh.data.drop sh.pos)]
        rw [List.drop_drop]
        rw [List.take_take]
        norm_num
      have hlen4 : ((sh.data.drop (sh.pos + 2)).take 4).length = 4 := by
        have hb6 : bytes.length = 6 := by exact_mod_cast hbl
        rw [hbytes, List.length_take, List.length_drop,
          show ((6 : Int).toNat) = 6 from rfl] at hb6
        rw [List.length_take, List.length_drop]
        omega
      rw [hslice] at hunp
      unfold unpackInt32LE at hunp
      rw [if_pos hlen4] at hunp
      injection hunp with h3
      exact h3.symm
  · cases hr : decodeEvent d s with
    | error e =>
      rw [hr] at hevt
      cases hevt
    | ok r =>
      obtain ⟨d1, s1⟩ := r
      have hE : eventAfter d s = d1.event := by
        unfold eventAfter
        rw [hr]
      rw [hE]
      obtain ⟨-, -, -, -, -, -, -, -, -, -, -, -, -, hidx, -, hex, -, -⟩ :=
        decodeEvent_ok_facts d s d1 s1 hr
      exact ⟨hidx, hex⟩

/-- C3: `time_sub_seconds` is decoded as a shifted varint — the base-128
composite `u` read at the same offset yields `u >>> 1` with the low
bit discarded — and the emitted event satisfies
`event_time = base_event_time * 1000 + time_sub_seconds`. -/
theorem claim3_event_time (d : Decoder) (s : JStream)
    (hok : isOkE (decodeEvent d s) = true) :
    (∃ o n u,
      decodeUvarintFromBytes (speek s (EVENT_INFO_SIZE : Int)) o = .ok (u, n) ∧
      decodeShiftedVarintFromBytes (speek s (EVENT_INFO_SIZE : Int)) o =
        .ok ((eventAfter d s).time_sub_seconds, n) ∧
      (eventAfter d s).time_sub_seconds = u >>> 1) ∧
    (eventAfter d s).event_time =
      d.base_event_time * 1000 + ((eventAfter d s).time_sub_seconds : Int) := by
  cases hr : decodeEvent d s with
  | error e =>
    rw [hr] at hok
    cases hok
  | ok r =>
    obtain ⟨d1, s1⟩ := r
    have hE : eventAfter d s = d1.event := by
      unfold eventAfter
      rw [hr]
    rw [hE]
    obtain ⟨-, -, -, -, -, -, -, -, -, -, -, -, -, -, hev, -, ⟨o, n, hsh⟩, -⟩ :=
      decodeEvent_ok_facts d s d1 s1 hr
    obtain ⟨u, hu, huv⟩ := decodeShifted_spec _ o _ n hsh
    exact ⟨⟨o, n, u, hu, huv ▸ hsh, huv⟩, hev⟩

/-- C4: one `scan()` call realizes the scan-loop contract.  The
`ScanOut` relation has exactly four rules: EOF while reading the next
opcode (including the empty stream) returns `false` with `err()`
cleared; a decode error after a consumed opcode byte returns `false`
with `err()` set to that error; a completed event-family opcode
(0x01, 0x02, 0x20-0x2B — `isEventOpcode`) returns `true`; any other
successfully decoded opcode is consumed silently and the loop
continues.  The theorem states that `scan` always produces an
outcome derivable by these rules. -/
theorem claim4_scan_contract (d : Decoder) (s : JStream) :
    ScanOut d s (scan d s) :=
  scanFuel_sound (s.data.length + 1) d s (by omega)

/-- C9 (amended): whenever `scan()` returns true, each of the three
active indices is 0, or its symbol table was never created (both
resolving to the empty string), or it is at most the table's current
length.  (The claim as stated omits the never-created case — see the
counterexample, where an out-of-range index is accepted because the
table is absent.) -/
theorem claim9_amended (d : Decoder) (s : JStream)
    (h : (scan d s).1 = true) :
    ((scan d s).2.1.active_host = 0 ∨ (scan d s).2.1.hosts = none ∨
      (scan d s).2.1.active_host ≤ (((scan d s).2.1.hosts).getD []).length) ∧
    ((scan d s).2.1.active_source = 0 ∨ (scan d s).2.1.sources = none ∨
      (scan d s).2.1.active_source ≤
        (((scan d s).2.1.sources).getD []).length) ∧
    ((scan d s).2.1.active_source_type = 0 ∨
      (scan d s).2.1.sourcetypes = none ∨
      (scan d s).2.1.active_source_type ≤
        (((scan d s).2.1.sourcetypes).getD []).length) := by
  have hfull : scan d s = (true, (scan d s).2.1, (scan d s).2.2) := by
    rw [← h]
  obtain ⟨dp, sp, hev, hde⟩ := scanFuel_true (s.data.length + 1) d s _ _ hfull
  obtain ⟨hhosts, hsrcs, hstypes, -, -, hah, has, hast, -, -,
    ⟨hv, hhv, -⟩, ⟨sv, hsv, -⟩, ⟨tv, htv, -⟩, -⟩ :=
    decodeEvent_ok_facts dp sp _ _ hde
  refine ⟨?_, ?_, ?_⟩
  · rw [hah, hhosts]
    exact hostFn_ok_bound hhv
  · rw [has, hsrcs]
    exact sourceFn_ok_bound hsv
  · rw [hast, hstypes]
    exact sourceTypeFn_ok_bound htv


/-! ### Witnesses -/

/-- Concrete event record for the witnesses of C1-C3: opcode 0x01
already consumed (position 1), wire `M = 13` equal to the 13
intermediate bytes, empty message. -/
def wEventBytes : List Nat := [1, 13, 0, 0, 0, 0, 0, 0, 0, 0, 0, 0, 0, 0, 0]

/-- Decoder state right after the opcode byte 0x01 of `wEventBytes`. -/
def wEventDecoder : Decoder := { initDecoder with opcode := 1 }

theorem claim1_amended_witness :
    decodeUvarintFromBytes (speek ⟨wEventBytes, 1⟩ (EVENT_INFO_SIZE : Int)) 0 =
      .ok (13, 1) ∧
    isOkE (decodeEvent wEventDecoder ⟨wEventBytes, 1⟩) = true ∧
    0 ≤ (eventAfter wEventDecoder ⟨wEventBytes, 1⟩).message_length ∧
    ((13 : Nat) : Int) =
      (eventAfter wEventDecoder ⟨wEventBytes, 1⟩).message.length +
        (((posAfterEvent wEventDecoder ⟨wEventBytes, 1⟩ : Int) -
            (eventAfter wEventDecoder ⟨wEventBytes, 1⟩).message.length) -
          (((⟨wEventBytes, 1⟩ : JStream).pos : Int) + 1)) :=
  ⟨by rfl, by decide, by decide,
    claim1_amended wEventDecoder ⟨wEventBytes, 1⟩ 13 1 (by rfl) (by decide)
      (by decide)⟩

theorem claim2_index_time_witness :
    isOkE (decodeHeader initDecoder ⟨[1, 0, 232, 3, 0, 0], 0⟩) = true ∧
    isOkE (decodeEvent wEventDecoder ⟨wEventBytes, 1⟩) = true ∧
    (initDecoder.base_index_time = 0 ∧
      baseAfterHeader initDecoder ⟨[1, 0, 232, 3, 0, 0], 0⟩ =
        toSigned32 (leCombine ((([1, 0, 232, 3, 0, 0] :
          List Nat).drop ((⟨[1, 0, 232, 3, 0, 0], 0⟩ : JStream).pos + 2)).take 4)) ∧
      (eventAfter wEventDecoder ⟨wEventBytes, 1⟩).index_time =
        wEventDecoder.base_index_time +
          ((eventAfter wEventDecoder ⟨wEventBytes, 1⟩).index_time_diff : Int) ∧
      (∃ o n, decodeUvarintFromBytes
          (speek ⟨wEventBytes, 1⟩ (EVENT_INFO_SIZE : Int)) o =
        .ok ((eventAfter wEventDecoder ⟨wEventBytes, 1⟩).index_time_diff, n))) :=
  ⟨by decide, by decide,
    claim2_index_time wEventDecoder initDecoder ⟨wEventBytes, 1⟩
      ⟨[1, 0, 232, 3, 0, 0], 0⟩ (by decide) (by decide)⟩

theorem claim3_event_time_witness :
    isOkE (decodeEvent wEventDecoder ⟨wEventBytes, 1⟩) = true ∧
    ((∃ o n u,
        decodeUvarintFromBytes
          (speek ⟨wEventBytes, 1⟩ (EVENT_INFO_SIZE : Int)) o = .ok (u, n) ∧
        decodeShiftedVarintFromBytes
          (speek ⟨wEventBytes, 1⟩ (EVENT_INFO_SIZE : Int)) o =
          .ok ((eventAfter wEventDecoder ⟨wEventBytes, 1⟩).time_sub_seconds, n) ∧
        (eventAfter wEventDecoder ⟨wEventBytes, 1⟩).time_sub_seconds = u >>> 1) ∧
      (eventAfter wEventDecoder ⟨wEventBytes, 1⟩).event_time =
        wEventDecoder.base_event_time * 1000 +
          ((eventAfter wEventDecoder ⟨wEventBytes, 1⟩).time_sub_seconds : Int)) :=
  ⟨by decide, claim3_event_time wEventDecoder ⟨wEventBytes, 1⟩ (by decide)⟩

theorem claim7_amended_witness :
    ([[107]] : List PyStr) ≠ [] ∧ (([[107]] : List PyStr).length < 2 ∨
      ([[107]] : List PyStr).length < 1) ∧
    (decodeField (some [[107]]) 2 1 =
      .ok (pystr "exc", pystr "list index out of range") ∧
    (scan initDecoder ⟨journal7b, 0⟩).1 = true ∧
    (scan initDecoder ⟨journal7b, 0⟩).2.1.event.metadata_fields =
      [(pystr "exc", MetaVal.scalar (pystr "list index out of range"))]) :=
  ⟨by decide, by decide,
    claim7_amended [[107]] 2 1 (by decide) (by decide)⟩

theorem claim9_amended_witness :
    (scan initDecoder ⟨journal9, 0⟩).1 = true ∧
    (((scan initDecoder ⟨journal9, 0⟩).2.1.active_host = 0 ∨
        (scan initDecoder ⟨journal9, 0⟩).2.1.hosts = none ∨
        (scan initDecoder ⟨journal9, 0⟩).2.1.active_host ≤
          (((scan initDecoder ⟨journal9, 0⟩).2.1.hosts).getD []).length) ∧
      ((scan initDecoder ⟨journal9, 0⟩).2.1.active_source = 0 ∨
        (scan initDecoder ⟨journal9, 0⟩).2.1.sources = none ∨
        (scan initDecoder ⟨journal9, 0⟩).2.1.active_source ≤
          (((scan initDecoder ⟨journal9, 0⟩).2.1.sources).getD []).length) ∧
      ((scan initDecoder ⟨journal9, 0⟩).2.1.active_source_type = 0 ∨
        (scan initDecoder ⟨journal9, 0⟩).2.1.sourcetypes = none ∨
        (scan initDecoder ⟨journal9, 0⟩).2.1.active_source_type ≤
          (((scan initDecoder ⟨journal9, 0⟩).2.1.sourcetypes).getD []).length)) :=
  ⟨by decide, claim9_amended initDecoder ⟨journal9, 0⟩ (by decide)⟩

theorem claim10_witness :
    ([[97], [98]] : List PyStr) ≠ [] ∧ 1 ≤ 1 ∧
    1 ≤ ([[97], [98]] : List PyStr).length ∧
    decodeField (some [[97], [98]]) 1 0 = .ok ([97], [98]) ∧
    decodeField (some [[97], [98]]) 0 0 = .ok ([98], [98]) := by
  refine ⟨by decide, le_rfl, by decide, ?_, ?_⟩
  · rw [(claim10_zero_index_resolves_to_last [[97], [98]] (by decide) 1 le_rfl
      (by decide)).1]
    rfl
  · rw [(claim10_zero_index_resolves_to_last [[97], [98]] (by decide) 1 le_rfl
      (by decide)).2]
    rfl

end SplunkDDSS
